import Mathlib

/-!
Verification of the RentAlert reminder-dispatch engine.

The definitions below are a shallow embedding of the background
reminder-job code: the in-memory job registry (`createReminderJob`,
`updateJobProgress`, `getJobStatus`, `cleanupOldJobs`), the background
dispatch loop (`processRemindersInBackground`), the channel senders'
bulk helper (`sendBulkSMS`), and the HTTP-facing job query handlers
(`getJobStatusHandler`, `getJobDetailsHandler`).

External collaborators (Mongo queries, the SMS/email providers, the
audit-log writes) are modelled by an environment record that fixes, for
each call the loop makes, whether that call raises an exception or what
value it returns.  Timestamps are natural numbers.  The run of a job is
a pure function of that environment; it returns the final registry, the
list of registry snapshots after every registry mutation (the
observation points a poller can see), and the list of outbound-channel
actions performed.
-/

namespace RentAlert

/-- Job lifecycle status: `processing`, `completed`, `failed`. -/
inductive JStatus where
  | processing
  | completed
  | failed
deriving DecidableEq, Repr

/-- Terminal statuses are `completed` and `failed`. -/
def JStatus.isTerminal : JStatus → Bool
  | .processing => false
  | .completed => true
  | .failed => true

/-- Per-recipient outcome record appended to `job.details`
(`tenantId`, `tenantName`, `status`, `cost`, `error`). -/
structure Detail where
  tenantId : String
  tenantName : String
  status : String
  cost : Nat
  error : Option String
deriving DecidableEq, Repr

/-- One tracked batch-send job, as stored in the in-memory `jobs` map. -/
structure Job where
  id : String
  status : JStatus
  total : Nat
  sent : Nat
  failed : Nat
  details : List Detail
  totalCost : Nat
  startedAt : Nat
  completedAt : Option Nat
  error : Option String
deriving DecidableEq, Repr

/-- The in-memory job registry (`const jobs = new Map()`), as an
association list keyed by job id. -/
abbrev Registry := List (String × Job)

/-- `jobs.get(k)`: first binding for key `k`, if any. -/
def mapGet (m : Registry) (k : String) : Option Job :=
  match m with
  | [] => none
  | (k', v) :: rest => if k' = k then some v else mapGet rest k

/-- `jobs.set(k, v)`: replace the binding for `k` in place, or append. -/
def mapSet (m : Registry) (k : String) (v : Job) : Registry :=
  match m with
  | [] => [(k, v)]
  | (k', v') :: rest =>
      if k' = k then (k, v) :: rest else (k', v') :: mapSet rest k v

/-- `jobs.delete(k)`: drop the binding for `k`. -/
def mapDelete (m : Registry) (k : String) : Registry :=
  match m with
  | [] => []
  | (k', v') :: rest =>
      if k' = k then rest else (k', v') :: mapDelete rest k

/-- Partial update merged into a job by `updateJobProgress`
(`Object.assign(job, update)`); `none` means the field is absent from
the update object. -/
structure JobUpdate where
  status : Option JStatus := none
  total : Option Nat := none
  sent : Option Nat := none
  failed : Option Nat := none
  details : Option (List Detail) := none
  totalCost : Option Nat := none
  completedAt : Option Nat := none
  error : Option String := none

/-- `Object.assign(job, update)`: fields present in the update replace
the job's fields, absent fields are kept. -/
def applyUpdate (j : Job) (u : JobUpdate) : Job :=
  { j with
    status := u.status.getD j.status
    total := u.total.getD j.total
    sent := u.sent.getD j.sent
    failed := u.failed.getD j.failed
    details := u.details.getD j.details
    totalCost := u.totalCost.getD j.totalCost
    completedAt := match u.completedAt with
      | some t => some t
      | none => j.completedAt
    error := match u.error with
      | some e => some e
      | none => j.error }

/-- `createReminderJob(jobId, totalCount)`: insert a fresh record with
`status='processing'`, zero counters, empty details, `startedAt=now`,
`completedAt=null`.  (`jobs.set` overwrites any existing binding.) -/
def createReminderJob (m : Registry) (jobId : String) (totalCount : Nat)
    (now : Nat) : Registry :=
  mapSet m jobId
    { id := jobId
      status := .processing
      total := totalCount
      sent := 0
      failed := 0
      details := []
      totalCost := 0
      startedAt := now
      completedAt := none
      error := none }

/-- `updateJobProgress(jobId, update)`: merge the update into the
existing record; no-op when the id is absent. -/
def updateJobProgress (m : Registry) (jobId : String) (u : JobUpdate) :
    Registry :=
  match mapGet m jobId with
  | none => m
  | some j => mapSet m jobId (applyUpdate j u)

/-- `getJobStatus(jobId)`: `jobs.get(jobId) || null`. -/
def getJobStatus (m : Registry) (jobId : String) : Option Job :=
  mapGet m jobId

/-- `cleanupOldJobs()`: delete every job whose `completedAt` is set and
older than one hour (3600000 ms before `now`). -/
def cleanupOldJobs (m : Registry) (now : Nat) : Registry :=
  m.filter (fun p =>
    match p.2.completedAt with
    | none => true
    | some t => ¬ (t + 3600000 < now))

/-- Outcome of an awaited collaborator call: either it raised an
exception carrying a message, or it returned a value. -/
inductive ExcOr (α : Type) where
  | raise (msg : String)
  | ok (v : α)
deriving DecidableEq, Repr

/-- Uniform channel-sender outcome (`{success, cost, error?}`), as
returned by `sendSMS` / `sendEmail`. -/
structure SendResult where
  success : Bool
  cost : Nat
  error : Option String
deriving DecidableEq, Repr

/-- A tenant record as the dispatch loop reads it: identifier, display
name, e-mail address (`""` models a missing/falsy address), owner id
and soft-delete marker.  Fields the loop only feeds into the pure
message renderers (phone, rent amount, due date, unit) are omitted. -/
structure Tenant where
  id : String
  name : String
  email : String
  userId : String
  deletedAt : Option Nat
deriving DecidableEq, Repr

/-- Behaviour of the collaborator calls made for one recipient:
the channel send, the `ReminderLog.create` in the success path, the
`tenant.save()`, and the `ReminderLog.create` in the catch handler. -/
structure TenantEnv where
  sendResult : ExcOr SendResult
  logCreate : ExcOr Unit
  tenantSave : ExcOr Unit
  logCreateCatch : ExcOr Unit

/-- Delivery method of a dispatch request. -/
inductive Method where
  | sms
  | email
deriving DecidableEq, Repr

/-- Observable outbound actions of the channel layer: a send to one
recipient, or a deliberate pause of `n` milliseconds. -/
inductive Act where
  | send (tenantId : String)
  | delayMs (n : Nat)
deriving DecidableEq, Repr

/-- `Tenant.find({_id: {$in: tenantIds}, userId, deletedAt: null})`:
the recipient-store query keeps exactly the requested, owner-matching,
not-soft-deleted tenants. -/
def tenantQuery (store : List Tenant) (tenantIds : List String)
    (userId : String) : List Tenant :=
  store.filter (fun t =>
    tenantIds.contains t.id && t.userId == userId && t.deletedAt == none)

/-- `EventLog.logEvent`: the underlying `create` may fail, but the
static wraps it in its own try/catch ("Silent fail - don't block user
actions"), so the call never raises whatever the store does. -/
def logEvent (underlying : ExcOr Unit) : Unit :=
  match underlying with
  | .raise _ => ()
  | .ok _ => ()

/-- Result of running (part of) the dispatch loop: the registry, the
accumulated local `totalCost`, the registry snapshots taken after each
mutation, and the channel actions performed; `thrown` means an
exception escaped towards the outermost handler. -/
inductive LoopOut where
  | cont (m : Registry) (tc : Nat) (tr : List Registry) (acts : List Act)
  | thrown (m : Registry) (msg : String) (tr : List Registry)
      (acts : List Act)

/-- Prepend channel actions to a loop outcome. -/
def addActs (a : List Act) : LoopOut → LoopOut
  | .cont m tc tr acts => .cont m tc tr (a ++ acts)
  | .thrown m msg tr acts => .thrown m msg tr (a ++ acts)

/-- The per-recipient `catch` handler: write a failed `ReminderLog`
entry (an exception here escapes the loop), then append a `failed`
detail and bump the `failed` counter.  Reading `job.failed` off a
missing job raises a `TypeError`. -/
def catchRecover (m : Registry) (jobId : String) (t : Tenant)
    (te : TenantEnv) (tc : Nat) (msg : String) : LoopOut :=
  match te.logCreateCatch with
  | .raise msg2 => .thrown m msg2 [] []
  | .ok _ =>
    match mapGet m jobId with
    | none => .thrown m "TypeError" [] []
    | some job =>
      let m' := updateJobProgress m jobId
        { failed := some (job.failed + 1)
          details := some (job.details ++
            [⟨t.id, t.name, "failed", 0, some msg⟩]) }
      .cont m' tc [m'] []

/-- One iteration of the dispatch loop's `try`/`catch` body for tenant
`t`: render and send (the renderers are pure), write the audit
`ReminderLog` entry, on success save the tenant's last-reminder
timestamp, accrue the local cost, then append the outcome detail and
bump `sent`/`failed` via `updateJobProgress`.  Any exception up to that
point lands in `catchRecover`. -/
def processOne (m : Registry) (jobId : String) (t : Tenant)
    (te : TenantEnv) (tc : Nat) : LoopOut :=
  addActs [Act.send t.id] <|
    match te.sendResult with
    | .raise msg => catchRecover m jobId t te tc msg
    | .ok r =>
      match te.logCreate with
      | .raise msg => catchRecover m jobId t te tc msg
      | .ok _ =>
        match (if r.success then te.tenantSave else .ok ()) with
        | .raise msg => catchRecover m jobId t te tc msg
        | .ok _ =>
          let tc' := tc + r.cost
          match mapGet m jobId with
          | none => catchRecover m jobId t te tc "TypeError"
          | some job =>
            let d : Detail :=
              ⟨t.id, t.name, if r.success then "sent" else "failed",
                r.cost, r.error⟩
            let m' := updateJobProgress m jobId
              { sent := some (if r.success then job.sent + 1 else job.sent)
                failed := some (if r.success then job.failed
                  else job.failed + 1)
                details := some (job.details ++ [d])
                totalCost := some tc' }
            .cont m' tc' [m'] []

/-- The `for` loop over the eligible tenants, in order; `idx` indexes
the per-recipient environment, `tc` is the running local `totalCost`.
An exception escaping a catch handler aborts the remaining
iterations. -/
def processLoop (tenv : Nat → TenantEnv) (jobId : String) :
    List Tenant → Nat → Nat → Registry → LoopOut
  | [], _, tc, m => .cont m tc [] []
  | t :: rest, idx, tc, m =>
    match processOne m jobId t (tenv idx) tc with
    | .cont m' tc' tr acts =>
      match processLoop tenv jobId rest (idx + 1) tc' m' with
      | .cont m'' tc'' tr' acts' =>
          .cont m'' tc'' (tr ++ tr') (acts ++ acts')
      | .thrown m'' msg tr' acts' =>
          .thrown m'' msg (tr ++ tr') (acts ++ acts')
    | .thrown m' msg tr acts => .thrown m' msg tr acts

/-- Environment of one background run: whether `User.findById` finds
the initiating user, the tenant store backing the recipient query, the
behaviour of each recipient's collaborator calls, the outcome of the
final summary event's underlying write, and the clock. -/
structure ProcEnv where
  userFound : Bool
  store : List Tenant
  tenv : Nat → TenantEnv
  eventUnderlying : ExcOr Unit
  now : Nat

/-- Result of a background run: final registry, the registry snapshots
after every mutation (in order), and the channel actions performed. -/
structure RunResult where
  final : Registry
  trace : List Registry
  acts : List Act

/-- `processRemindersInBackground(jobId, userId, tenantIds, method)`:
resolve the user and the eligible tenants (failing the job outright
when the user is missing or no tenant matches), correct the job's
`total`, run the per-recipient loop, then emit the summary event and
mark the job `completed` — while the outermost `catch` turns any
escaped exception into `status='failed'` with the captured message. -/
def processRemindersInBackground (env : ProcEnv) (m : Registry)
    (jobId userId : String) (tenantIds : List String) (method : Method) :
    RunResult :=
  if !env.userFound then
    let m' := updateJobProgress m jobId
      { status := some .failed, error := some "User not found",
        completedAt := some env.now }
    ⟨m', [m'], []⟩
  else
    let tenants := tenantQuery env.store tenantIds userId
    if tenants.length = 0 then
      let m' := updateJobProgress m jobId
        { status := some .failed, error := some "No valid tenants found",
          completedAt := some env.now }
      ⟨m', [m'], []⟩
    else
      let eligibleTenants :=
        if method = Method.email then tenants.filter (fun t => t.email != "")
        else tenants
      let m1 := updateJobProgress m jobId
        { total := some eligibleTenants.length }
      match processLoop env.tenv jobId eligibleTenants 0 0 m1 with
      | .cont m2 tc tr acts =>
        match mapGet m2 jobId with
        | none =>
          let m3 := updateJobProgress m2 jobId
            { status := some .failed, error := some "TypeError",
              completedAt := some env.now }
          ⟨m3, m1 :: tr ++ [m3], acts⟩
        | some _ =>
          let _ := logEvent env.eventUnderlying
          let m3 := updateJobProgress m2 jobId
            { status := some .completed, totalCost := some tc,
              completedAt := some env.now }
          ⟨m3, m1 :: tr ++ [m3], acts⟩
      | .thrown m2 msg tr acts =>
        let m3 := updateJobProgress m2 jobId
          { status := some .failed, error := some msg,
            completedAt := some env.now }
        ⟨m3, m1 :: tr ++ [m3], acts⟩

/-- A full tracked run: the entry point registers the job
(`createReminderJob`) and hands off to the background loop. -/
def runJob (env : ProcEnv) (m0 : Registry) (jobId userId : String)
    (tenantIds : List String) (method : Method) (totalCount : Nat) :
    RunResult :=
  processRemindersInBackground env
    (createReminderJob m0 jobId totalCount env.now) jobId userId tenantIds
    method

/-- Every observation point of a run: the registry right after job
creation, then after each mutation made by the background loop. -/
def obsTrace (env : ProcEnv) (m0 : Registry) (jobId userId : String)
    (tenantIds : List String) (method : Method) (totalCount : Nat) :
    List Registry :=
  createReminderJob m0 jobId totalCount env.now ::
    (runJob env m0 jobId userId tenantIds method totalCount).trace

/-- `sendBulkSMS(messages)`: send each message in order via `sendSMS`
(which never raises — it converts provider errors into a failed
result), pausing 100 ms after every send ("Small delay to avoid rate
limiting").  `outcome i` is the provider's answer for message `i`. -/
def sendBulkSMS (outcome : Nat → SendResult) :
    List String → Nat → List SendResult × List Act
  | [], _ => ([], [])
  | dest :: rest, idx =>
    let r := outcome idx
    let tail := sendBulkSMS outcome rest (idx + 1)
    (r :: tail.1, Act.send dest :: Act.delayMs 100 :: tail.2)

/-- The request context a job-query handler sees: the `jobId` route
parameter and the authenticated requesting user (`req.user`). -/
structure ReqCtx where
  jobId : String
  userId : String
deriving DecidableEq, Repr

/-- `Math.round(((sent + failed) / total) * 100)` when `total > 0`,
else `0`. -/
def progressPercent (sent failed total : Nat) : Nat :=
  if 0 < total then (2 * ((sent + failed) * 100) + total) / (2 * total)
  else 0

/-- Body of the summary response returned by `GET /jobs/:jobId`. -/
structure StatusView where
  id : String
  status : JStatus
  total : Nat
  sent : Nat
  failed : Nat
  totalCost : Nat
  startedAt : Nat
  completedAt : Option Nat
  progress : Nat
deriving DecidableEq, Repr

/-- Body of the detailed response returned by
`GET /jobs/:jobId/details` (summary plus the `details` list). -/
structure DetailsView where
  id : String
  status : JStatus
  total : Nat
  sent : Nat
  failed : Nat
  totalCost : Nat
  details : List Detail
  startedAt : Nat
  completedAt : Option Nat
  progress : Nat
deriving DecidableEq, Repr

/-- The `getJobStatus` controller: look the job up by the `jobId`
route parameter only; `none` is the 404 "Job not found" response. -/
def getJobStatusHandler (m : Registry) (req : ReqCtx) :
    Option StatusView :=
  (getJobStatus m req.jobId).map (fun job =>
    ⟨job.id, job.status, job.total, job.sent, job.failed, job.totalCost,
      job.startedAt, job.completedAt,
      progressPercent job.sent job.failed job.total⟩)

/-- The `getJobDetails` controller: same lookup by `jobId` only, plus
the full `details` list. -/
def getJobDetailsHandler (m : Registry) (req : ReqCtx) :
    Option DetailsView :=
  (getJobStatus m req.jobId).map (fun job =>
    ⟨job.id, job.status, job.total, job.sent, job.failed, job.totalCost,
      job.details, job.startedAt, job.completedAt,
      progressPercent job.sent job.failed job.total⟩)

/-- Is this action a channel send? -/
def Act.isSend : Act → Bool
  | .send _ => true
  | .delayMs _ => false

/-- Does every channel send in the action list have a deliberate pause
immediately after it (so consecutive sends are always separated by a
delay)? -/
def delayAfterEachSend : List Act → Bool
  | [] => true
  | .send _ :: .delayMs _ :: rest => delayAfterEachSend rest
  | .send _ :: _ => false
  | .delayMs _ :: rest => delayAfterEachSend rest

/-- The job stored under a key, defaulting to a dummy record; used only
to phrase concrete observations. -/
def jobAt (m : Registry) (k : String) : Job :=
  (mapGet m k).getD ⟨"", .processing, 0, 0, 0, [], 0, 0, none, none⟩

/-- Registry actions of a loop outcome. -/
def LoopOut.regOf : LoopOut → Registry
  | .cont m _ _ _ => m
  | .thrown m _ _ _ => m

/-- Channel actions of a loop outcome. -/
def LoopOut.actsOf : LoopOut → List Act
  | .cont _ _ _ a => a
  | .thrown _ _ _ a => a

/-- Job fields that a per-recipient loop iteration never touches. -/
def presEq (j j' : Job) : Prop :=
  j'.id = j.id ∧ j'.status = j.status ∧ j'.total = j.total ∧
    j'.startedAt = j.startedAt ∧ j'.completedAt = j.completedAt ∧
    j'.error = j.error


/-- What a poller may observe between two successive snapshots of one
job: counters never decrease, and once the status is terminal the
counters, details, total cost and status never change again. -/
def MonQ (j j' : Job) : Prop :=
  j.sent ≤ j'.sent ∧ j.failed ≤ j'.failed ∧
    (j.status.isTerminal = true →
      j'.sent = j.sent ∧ j'.failed = j.failed ∧ j'.details = j.details ∧
        j'.totalCost = j.totalCost ∧ j'.status = j.status)


/-- Snapshot-to-snapshot relation on registries, for the job `jobId`:
whenever the earlier snapshot holds the job, the later one still holds
it and `MonQ` relates the two records. -/
def MonR (jobId : String) (m m' : Registry) : Prop :=
  ∀ j, mapGet m jobId = some j →
    ∃ j', mapGet m' jobId = some j' ∧ MonQ j j'


/-- How one iteration's target job relates to the incoming one, inside
a loop that still has `n` iterations to go. -/
def RelJ (j jx : Job) (n : Nat) : Prop :=
  presEq j jx ∧ j.sent ≤ jx.sent ∧ j.failed ≤ jx.failed ∧
    jx.sent + jx.failed ≤ j.sent + j.failed + n ∧
    jx.details.length + j.sent + j.failed =
      j.details.length + jx.sent + jx.failed


/-- One loop iteration moves the target job by exactly one outcome:
one detail appended and one counter bumped, everything else kept. -/
def StepJ (j j' : Job) : Prop :=
  presEq j j' ∧
    ((j'.sent = j.sent + 1 ∧ j'.failed = j.failed) ∨
      (j'.sent = j.sent ∧ j'.failed = j.failed + 1)) ∧
    ∃ d, j'.details = j.details ++ [d]


/-- The per-element facts `run_trace_spec` certifies at every
observation point: the frame condition on other jobs, and for the
target job the detail-count identity, the counter bound and the
completedAt/terminal agreement. -/
def ObsOK (mStart x : Registry) (jobId : String) : Prop :=
  (∀ k, k ≠ jobId → mapGet x k = mapGet mStart k) ∧
    ∃ jx, mapGet x jobId = some jx ∧
      jx.details.length = jx.sent + jx.failed ∧
      jx.sent + jx.failed ≤ jx.total ∧
      jx.completedAt.isSome = jx.status.isTerminal

/-- Collaborator behaviour where every call succeeds and the channel
reports success at cost 50. -/
def teOK : TenantEnv := ⟨.ok ⟨true, 50, none⟩, .ok (), .ok (), .ok ()⟩

/-- Concrete tenants used to instantiate theorems on closed runs. -/
def tenantA : Tenant := ⟨"t1", "Alice", "a@x.com", "u1", none⟩

def tenantB : Tenant := ⟨"t2", "Bob", "b@x.com", "u1", none⟩

def tenantC : Tenant := ⟨"t3", "Carol", "c@x.com", "u1", none⟩

/-- A tenant with no e-mail address on file. -/
def tenantNoMail : Tenant := ⟨"t4", "Dan", "", "u1", none⟩

/-- A finished job sitting in the registry, used to exhibit concrete
counterexamples about `createReminderJob` on an existing id. -/
def doneJob : Job :=
  ⟨"j", .completed, 5, 5, 0, [], 250, 1, some 2, none⟩

/-- Collaborator behaviour whose channel send raises. -/
def teSendRaise : TenantEnv := ⟨.raise "boom", .ok (), .ok (), .ok ()⟩

/-- Collaborator behaviour where the send succeeds but the success-path
audit write raises, and the catch-handler audit write raises too. -/
def teLogRaise : TenantEnv :=
  ⟨.ok ⟨true, 50, none⟩, .raise "log down", .ok (), .raise "log down2"⟩

/-- Collaborator behaviour where the send raises and the catch-handler
audit write raises as well. -/
def teCatchRaise : TenantEnv := ⟨.raise "boom", .ok (), .ok (), .raise "db down"⟩

/-- Environment where recipient #2's channel send raises and everything
else succeeds. -/
def envC1 : ProcEnv :=
  ⟨true, [tenantA, tenantB, tenantC],
    fun i => if i = 1 then teSendRaise else teOK, .ok (), 5⟩

/-- Environment where recipient #1's audit writes both raise. -/
def envLogDown : ProcEnv :=
  ⟨true, [tenantA, tenantB], fun i => if i = 0 then teLogRaise else teOK,
    .ok (), 5⟩

/-- Environment where recipient #2's send raises and that recipient's
catch-handler audit write raises as well. -/
def envCatchDown : ProcEnv :=
  ⟨true, [tenantA, tenantB],
    fun i => if i = 1 then teCatchRaise else teOK, .ok (), 5⟩

/-- Environment whose initiating user cannot be resolved. -/
def envUserGone : ProcEnv := ⟨false, [], fun _ => teOK, .ok (), 5⟩

/-- Environment whose only tenant has no e-mail address. -/
def envNoMail : ProcEnv := ⟨true, [tenantNoMail], fun _ => teOK, .ok (), 5⟩

/-- Collaborator behaviour where the send succeeds, the success-path
audit write raises, but the catch-handler audit write succeeds. -/
def teLogRaiseCaught : TenantEnv :=
  ⟨.ok ⟨true, 50, none⟩, .raise "log down", .ok (), .ok ()⟩

/-- A processing job freshly registered under "job1". -/
def jobP : Job := ⟨"job1", .processing, 2, 0, 0, [], 0, 5, none, none⟩

/-- Environment where every collaborator call succeeds. -/
def envAllOK : ProcEnv := ⟨true, [tenantA, tenantB, tenantC], fun _ => teOK, .ok (), 5⟩


section MapLemmas

theorem mapGet_mapSet_self (m : Registry) (k : String) (v : Job) :
    mapGet (mapSet m k v) k = some v := by
  induction m with
  | nil => simp [mapSet, mapGet]
  | cons p rest ih =>
    obtain ⟨k', v'⟩ := p
    by_cases h : k' = k <;> simp [mapSet, mapGet, h, ih]

theorem mapGet_mapSet_ne (m : Registry) (k k' : String) (v : Job)
    (h : k' ≠ k) : mapGet (mapSet m k v) k' = mapGet m k' := by
  induction m with
  | nil => simp [mapSet, mapGet, Ne.symm h]
  | cons p rest ih =>
    obtain ⟨ka, va⟩ := p
    by_cases hk : ka = k
    · subst hk
      simp [mapSet, mapGet, Ne.symm h]
    · simp only [mapSet, if_neg hk, mapGet]
      by_cases hk' : ka = k' <;> simp [hk', ih]

theorem mapGet_mem (m : Registry) (k : String) (v : Job)
    (h : mapGet m k = some v) : (k, v) ∈ m := by
  induction m with
  | nil => simp [mapGet] at h
  | cons p rest ih =>
    obtain ⟨ka, va⟩ := p
    by_cases hk : ka = k
    · subst hk
      simp [mapGet] at h
      simp [h]
    · simp only [mapGet, if_neg hk] at h
      exact List.mem_cons_of_mem _ (ih h)

theorem updateJobProgress_get_eq (m : Registry) (jobId : String)
    (u : JobUpdate) (j : Job) (hj : mapGet m jobId = some j) :
    updateJobProgress m jobId u = mapSet m jobId (applyUpdate j u) := by
  simp [updateJobProgress, hj]

theorem updateJobProgress_get_self (m : Registry) (jobId : String)
    (u : JobUpdate) (j : Job) (hj : mapGet m jobId = some j) :
    mapGet (updateJobProgress m jobId u) jobId =
      some (applyUpdate j u) := by
  rw [updateJobProgress_get_eq m jobId u j hj, mapGet_mapSet_self]

theorem updateJobProgress_get_ne (m : Registry) (jobId k : String)
    (u : JobUpdate) (h : k ≠ jobId) :
    mapGet (updateJobProgress m jobId u) k = mapGet m k := by
  unfold updateJobProgress
  cases hg : mapGet m jobId with
  | none => rfl
  | some j => exact mapGet_mapSet_ne m jobId k _ h

end MapLemmas

theorem presEq_refl (j : Job) : presEq j j :=
  ⟨rfl, rfl, rfl, rfl, rfl, rfl⟩

theorem presEq_trans {a b c : Job} (h1 : presEq a b) (h2 : presEq b c) :
    presEq a c := by
  obtain ⟨e1, e2, e3, e4, e5, e6⟩ := h1
  obtain ⟨f1, f2, f3, f4, f5, f6⟩ := h2
  exact ⟨f1.trans e1, f2.trans e2, f3.trans e3, f4.trans e4,
    f5.trans e5, f6.trans e6⟩

theorem MonQ_refl (j : Job) : MonQ j j :=
  ⟨le_refl _, le_refl _, fun _ => ⟨rfl, rfl, rfl, rfl, rfl⟩⟩

theorem MonQ_trans {a b c : Job} (h1 : MonQ a b) (h2 : MonQ b c) :
    MonQ a c := by
  obtain ⟨s1, f1, t1⟩ := h1
  obtain ⟨s2, f2, t2⟩ := h2
  refine ⟨s1.trans s2, f1.trans f2, fun ht => ?_⟩
  obtain ⟨a1, a2, a3, a4, a5⟩ := t1 ht
  have hb : b.status.isTerminal = true := by rw [a5]; exact ht
  obtain ⟨b1, b2, b3, b4, b5⟩ := t2 hb
  exact ⟨b1.trans a1, b2.trans a2, b3.trans a3, b4.trans a4, b5.trans a5⟩

theorem MonR_refl (jobId : String) (m : Registry) : MonR jobId m m :=
  fun j hj => ⟨j, hj, MonQ_refl j⟩

theorem MonR_trans {jobId : String} {a b c : Registry}
    (h1 : MonR jobId a b) (h2 : MonR jobId b c) : MonR jobId a c := by
  intro j hj
  obtain ⟨j1, hj1, hq1⟩ := h1 j hj
  obtain ⟨j2, hj2, hq2⟩ := h2 j1 hj1
  exact ⟨j2, hj2, MonQ_trans hq1 hq2⟩

theorem RelJ_refl (j : Job) (n : Nat) : RelJ j j n :=
  ⟨presEq_refl j, le_refl _, le_refl _, Nat.le_add_right _ _, by ring⟩

theorem StepJ_relJ {j j' jx : Job} {n : Nat} (hs : StepJ j j')
    (hr : RelJ j' jx n) : RelJ j jx (n + 1) := by
  obtain ⟨hp, hcnt, d, hd⟩ := hs
  obtain ⟨hp', hs', hf', hb', he'⟩ := hr
  have hlen : j'.details.length = j.details.length + 1 := by
    rw [hd]; simp
  rcases hcnt with ⟨h1, h2⟩ | ⟨h1, h2⟩ <;>
    exact ⟨presEq_trans hp hp',
      by omega, by omega, by omega, by omega⟩

theorem StepJ_monQ {j j' : Job} (hproc : j.status = .processing)
    (hs : StepJ j j') : MonQ j j' := by
  obtain ⟨_, hcnt, _, _⟩ := hs
  refine ⟨?_, ?_, fun ht => ?_⟩
  · rcases hcnt with ⟨h1, _⟩ | ⟨h1, _⟩ <;> omega
  · rcases hcnt with ⟨_, h2⟩ | ⟨_, h2⟩ <;> omega
  · rw [hproc] at ht
    simp [JStatus.isTerminal] at ht

theorem addActs_cont (a : List Act) (m : Registry) (tc : Nat)
    (tr : List Registry) (acts : List Act) :
    addActs a (.cont m tc tr acts) = .cont m tc tr (a ++ acts) := rfl

theorem addActs_thrown (a : List Act) (m : Registry) (msg : String)
    (tr : List Registry) (acts : List Act) :
    addActs a (.thrown m msg tr acts) = .thrown m msg tr (a ++ acts) :=
  rfl

/-- The per-recipient catch handler either rethrows (leaving the
registry untouched) or records exactly one failed detail. -/
theorem catchRecover_spec (m : Registry) (jobId : String) (t : Tenant)
    (te : TenantEnv) (tc : Nat) (msg : String) (j : Job)
    (hj : mapGet m jobId = some j) :
    (∃ msg2, catchRecover m jobId t te tc msg = .thrown m msg2 [] []) ∨
    (∃ j', catchRecover m jobId t te tc msg =
        .cont (mapSet m jobId j') tc [mapSet m jobId j'] [] ∧
      presEq j j' ∧ j'.sent = j.sent ∧ j'.failed = j.failed + 1 ∧
      j'.details = j.details ++ [⟨t.id, t.name, "failed", 0, some msg⟩]) := by
  rcases hcc : te.logCreateCatch with msg2 | u
  · exact Or.inl ⟨msg2, by simp only [catchRecover, hcc]⟩
  · refine Or.inr ⟨applyUpdate j
      { failed := some (j.failed + 1)
        details := some (j.details ++
          [⟨t.id, t.name, "failed", 0, some msg⟩]) }, ?_,
      ⟨rfl, rfl, rfl, rfl, rfl, rfl⟩, rfl, rfl, rfl⟩
    simp only [catchRecover, hcc, hj,
      updateJobProgress_get_eq m jobId _ j hj]

/-- One loop iteration either throws out of its catch handler with the
registry untouched, or performs exactly one `StepJ` update on the
target job; in either case it emits exactly one channel send. -/
theorem processOne_spec (m : Registry) (jobId : String) (t : Tenant)
    (te : TenantEnv) (tc : Nat) (j : Job) (hj : mapGet m jobId = some j) :
    (∃ msg, processOne m jobId t te tc =
        .thrown m msg [] [Act.send t.id]) ∨
    (∃ j' tc', processOne m jobId t te tc =
        .cont (mapSet m jobId j') tc' [mapSet m jobId j']
          [Act.send t.id] ∧
      StepJ j j') := by
  have hcatch : ∀ msg,
      (∃ msg2, addActs [Act.send t.id] (catchRecover m jobId t te tc msg) =
          .thrown m msg2 [] [Act.send t.id]) ∨
      (∃ j' tc', addActs [Act.send t.id]
          (catchRecover m jobId t te tc msg) =
          .cont (mapSet m jobId j') tc' [mapSet m jobId j']
            [Act.send t.id] ∧ StepJ j j') := by
    intro msg
    rcases catchRecover_spec m jobId t te tc msg j hj with
      ⟨msg2, hcr⟩ | ⟨j', hcr, hp, hs, hf, hd⟩
    · rw [hcr]; exact Or.inl ⟨msg2, rfl⟩
    · rw [hcr]
      exact Or.inr ⟨j', tc, rfl, hp, Or.inr ⟨hs, hf⟩, _, hd⟩
  rcases hsr : te.sendResult with msg | r
  · have h := hcatch msg
    simpa only [processOne, hsr] using h
  · rcases hlc : te.logCreate with msg | u
    · have h := hcatch msg
      simpa only [processOne, hsr, hlc] using h
    · rcases hsv : (if r.success then te.tenantSave else ExcOr.ok ())
        with msg | u2
      · have h := hcatch msg
        simpa only [processOne, hsr, hlc, hsv] using h
      · refine Or.inr ⟨applyUpdate j
          { sent := some (if r.success then j.sent + 1 else j.sent)
            failed := some (if r.success then j.failed else j.failed + 1)
            details := some (j.details ++
              [⟨t.id, t.name, if r.success then "sent" else "failed",
                r.cost, r.error⟩])
            totalCost := some (tc + r.cost) }, tc + r.cost, ?_, ?_⟩
        · simp only [processOne, hsr, hlc, hsv, hj,
            updateJobProgress_get_eq m jobId _ j hj, addActs_cont,
            List.append_nil]
        · refine ⟨⟨rfl, rfl, rfl, rfl, rfl, rfl⟩, ?_, _, rfl⟩
          rcases hsucc : r.success with _ | _
          · exact Or.inr ⟨by simp [applyUpdate, hsucc],
              by simp [applyUpdate, hsucc]⟩
          · exact Or.inl ⟨by simp [applyUpdate, hsucc],
              by simp [applyUpdate, hsucc]⟩

theorem StepJ_sum {j j' : Job} (hs : StepJ j j') :
    j'.sent + j'.failed = j.sent + j.failed + 1 := by
  obtain ⟨_, hcnt, _⟩ := hs
  rcases hcnt with ⟨h1, h2⟩ | ⟨h1, h2⟩ <;> omega

/-- Main characterisation of the dispatch loop, relative to the job it
targets: list the per-snapshot facts, the other-key frame condition,
the poller chain and the exact/bounded counter sums, for both the
normal (`cont`) and the exception (`thrown`) outcome. -/
theorem processLoop_spec (tenv : Nat → TenantEnv) (jobId : String)
    (ts : List Tenant) :
    ∀ (idx tc : Nat) (m : Registry) (j : Job),
      mapGet m jobId = some j → j.status = .processing →
      (∀ m' tc' tr acts,
          processLoop tenv jobId ts idx tc m = .cont m' tc' tr acts →
          (∃ j', mapGet m' jobId = some j' ∧ RelJ j j' ts.length ∧
            j'.sent + j'.failed = j.sent + j.failed + ts.length) ∧
          (∀ x ∈ tr, ∃ jx, mapGet x jobId = some jx ∧
            RelJ j jx ts.length) ∧
          (∀ k, k ≠ jobId → mapGet m' k = mapGet m k ∧
            ∀ x ∈ tr, mapGet x k = mapGet m k) ∧
          List.Chain' (MonR jobId) (m :: tr) ∧
          (m :: tr).getLast? = some m') ∧
      (∀ m' msg tr acts,
          processLoop tenv jobId ts idx tc m = .thrown m' msg tr acts →
          (∃ j', mapGet m' jobId = some j' ∧ RelJ j j' ts.length) ∧
          (∀ x ∈ tr, ∃ jx, mapGet x jobId = some jx ∧
            RelJ j jx ts.length) ∧
          (∀ k, k ≠ jobId → mapGet m' k = mapGet m k ∧
            ∀ x ∈ tr, mapGet x k = mapGet m k) ∧
          List.Chain' (MonR jobId) (m :: tr) ∧
          (m :: tr).getLast? = some m') := by
  induction ts with
  | nil =>
    intro idx tc m j hj hproc
    constructor
    · intro m' tc' tr acts h
      simp only [processLoop, LoopOut.cont.injEq] at h
      obtain ⟨rfl, rfl, rfl, rfl⟩ := h
      refine ⟨⟨j, hj, RelJ_refl j 0, by simp⟩, by simp, ?_, ?_, rfl⟩
      · intro k _
        exact ⟨rfl, by simp⟩
      · exact List.chain'_singleton m
    · intro m' msg tr acts h
      simp only [processLoop] at h
      exact LoopOut.noConfusion h
  | cons t rest ih =>
    intro idx tc m j hj hproc
    rcases processOne_spec m jobId t (tenv idx) tc j hj with
      ⟨msg0, hpo⟩ | ⟨j1, tc1, hpo, hstep⟩
    · -- the iteration throws out of its catch handler: loop aborts
      constructor
      · intro m' tc' tr acts h
        simp only [processLoop, hpo] at h
        exact LoopOut.noConfusion h
      · intro m' msg tr acts h
        simp only [processLoop, hpo, LoopOut.thrown.injEq] at h
        obtain ⟨rfl, rfl, rfl, rfl⟩ := h
        refine ⟨⟨j, hj, RelJ_refl j _⟩, by simp, ?_,
          List.chain'_singleton m, rfl⟩
        intro k _
        exact ⟨rfl, by simp⟩
    · -- the iteration performed its single update and continued
      have hj1 : mapGet (mapSet m jobId j1) jobId = some j1 :=
        mapGet_mapSet_self m jobId j1
      have hproc1 : j1.status = .processing := by
        obtain ⟨⟨_, hst, _⟩, _, _⟩ := hstep
        rw [hst, hproc]
      have hmonR : MonR jobId m (mapSet m jobId j1) := by
        intro ja hja
        rw [hj] at hja
        cases hja
        exact ⟨j1, hj1, StepJ_monQ hproc hstep⟩
      have hframe : ∀ k, k ≠ jobId →
          mapGet (mapSet m jobId j1) k = mapGet m k :=
        fun k hk => mapGet_mapSet_ne m jobId k j1 hk
      obtain ⟨ihc, iht⟩ := ih (idx + 1) tc1 (mapSet m jobId j1) j1 hj1 hproc1
      constructor
      · intro m' tc' tr acts h
        rcases hrest : processLoop tenv jobId rest (idx + 1) tc1
            (mapSet m jobId j1) with ⟨m2, tc2, tr2, acts2⟩ |
              ⟨m2, msg2, tr2, acts2⟩
        · simp only [processLoop, hpo, hrest, LoopOut.cont.injEq] at h
          obtain ⟨rfl, rfl, rfl, rfl⟩ := h
          obtain ⟨⟨j2, hj2, hrel2, hsum2⟩, htr2, hoth2, hch2, hlast2⟩ :=
            ihc _ _ _ _ hrest
          refine ⟨⟨j2, hj2, StepJ_relJ hstep hrel2, ?_⟩, ?_, ?_, ?_, ?_⟩
          · have := StepJ_sum hstep
            simp only [List.length_cons]
            omega
          · intro x hx
            simp only [List.cons_append, List.nil_append,
              List.mem_cons] at hx
            rcases hx with rfl | hx
            · exact ⟨j1, hj1,
                StepJ_relJ hstep (RelJ_refl j1 rest.length)⟩
            · obtain ⟨jx, hjx, hrx⟩ := htr2 x hx
              exact ⟨jx, hjx, StepJ_relJ hstep hrx⟩
          · intro k hk
            obtain ⟨hm', htr⟩ := hoth2 k hk
            refine ⟨hm'.trans (hframe k hk), ?_⟩
            intro x hx
            simp only [List.cons_append, List.nil_append,
              List.mem_cons] at hx
            rcases hx with rfl | hx
            · exact hframe k hk
            · exact (htr x hx).trans (hframe k hk)
          · simp only [List.cons_append, List.nil_append]
            rw [List.chain'_cons]
            exact ⟨hmonR, hch2⟩
          · simp only [List.cons_append, List.nil_append,
              List.getLast?_cons_cons]
            exact hlast2
        · simp only [processLoop, hpo, hrest] at h
          exact LoopOut.noConfusion h
      · intro m' msg tr acts h
        rcases hrest : processLoop tenv jobId rest (idx + 1) tc1
            (mapSet m jobId j1) with ⟨m2, tc2, tr2, acts2⟩ |
              ⟨m2, msg2, tr2, acts2⟩
        · simp only [processLoop, hpo, hrest] at h
          exact LoopOut.noConfusion h
        · simp only [processLoop, hpo, hrest, LoopOut.thrown.injEq] at h
          obtain ⟨rfl, rfl, rfl, rfl⟩ := h
          obtain ⟨⟨j2, hj2, hrel2⟩, htr2, hoth2, hch2, hlast2⟩ :=
            iht _ _ _ _ hrest
          refine ⟨⟨j2, hj2, StepJ_relJ hstep hrel2⟩, ?_, ?_, ?_, ?_⟩
          · intro x hx
            simp only [List.cons_append, List.nil_append,
              List.mem_cons] at hx
            rcases hx with rfl | hx
            · exact ⟨j1, hj1,
                StepJ_relJ hstep (RelJ_refl j1 rest.length)⟩
            · obtain ⟨jx, hjx, hrx⟩ := htr2 x hx
              exact ⟨jx, hjx, StepJ_relJ hstep hrx⟩
          · intro k hk
            obtain ⟨hm', htr⟩ := hoth2 k hk
            refine ⟨hm'.trans (hframe k hk), ?_⟩
            intro x hx
            simp only [List.cons_append, List.nil_append,
              List.mem_cons] at hx
            rcases hx with rfl | hx
            · exact hframe k hk
            · exact (htr x hx).trans (hframe k hk)
          · simp only [List.cons_append, List.nil_append]
            rw [List.chain'_cons]
            exact ⟨hmonR, hch2⟩
          · simp only [List.cons_append, List.nil_append,
              List.getLast?_cons_cons]
            exact hlast2

theorem trace_mk (f : Registry) (tr : List Registry) (a : List Act) :
    (RunResult.mk f tr a).trace = tr := rfl

theorem final_mk (f : Registry) (tr : List Registry) (a : List Act) :
    (RunResult.mk f tr a).final = f := rfl

theorem acts_mk (f : Registry) (tr : List Registry) (a : List Act) :
    (RunResult.mk f tr a).acts = a := rfl

theorem create_get_self (m : Registry) (jobId : String)
    (totalCount now : Nat) :
    mapGet (createReminderJob m jobId totalCount now) jobId =
      some ⟨jobId, .processing, totalCount, 0, 0, [], 0, now,
        none, none⟩ :=
  mapGet_mapSet_self m jobId _

theorem create_get_ne (m : Registry) (jobId k : String)
    (totalCount now : Nat) (h : k ≠ jobId) :
    mapGet (createReminderJob m jobId totalCount now) k = mapGet m k :=
  mapGet_mapSet_ne m jobId k _ h

/-- Characterisation of a whole background run started on a fresh
`processing` job: every snapshot satisfies `ObsOK`, successive
snapshots are related by `MonR`, the last snapshot is the final
registry, and the final job is terminal with `completedAt` set. -/
theorem run_trace_spec (env : ProcEnv) (m : Registry)
    (jobId userId : String) (tenantIds : List String) (method : Method)
    (j : Job) (hj : mapGet m jobId = some j)
    (hst : j.status = .processing) (hs0 : j.sent = 0) (hf0 : j.failed = 0)
    (hd0 : j.details = []) (hc0 : j.completedAt = none) :
    (∀ x ∈ (processRemindersInBackground env m jobId userId tenantIds
        method).trace, ObsOK m x jobId) ∧
    List.Chain' (MonR jobId) (m :: (processRemindersInBackground env m
      jobId userId tenantIds method).trace) ∧
    (m :: (processRemindersInBackground env m jobId userId tenantIds
      method).trace).getLast? = some (processRemindersInBackground env m
        jobId userId tenantIds method).final ∧
    (∃ jf, mapGet (processRemindersInBackground env m jobId userId
        tenantIds method).final jobId = some jf ∧
      jf.status.isTerminal = true ∧ jf.completedAt = some env.now) := by
  have hfail : ∀ msg : String,
      (∀ x ∈ [updateJobProgress m jobId
          { status := some .failed, error := some msg,
            completedAt := some env.now }], ObsOK m x jobId) ∧
      List.Chain' (MonR jobId) (m :: [updateJobProgress m jobId
        { status := some .failed, error := some msg,
          completedAt := some env.now }]) ∧
      (m :: [updateJobProgress m jobId
        { status := some .failed, error := some msg,
          completedAt := some env.now }]).getLast? =
        some (updateJobProgress m jobId
          { status := some .failed, error := some msg,
            completedAt := some env.now }) ∧
      (∃ jf, mapGet (updateJobProgress m jobId
          { status := some .failed, error := some msg,
            completedAt := some env.now }) jobId = some jf ∧
        jf.status.isTerminal = true ∧ jf.completedAt = some env.now) := by
    intro msg
    have hget := updateJobProgress_get_self m jobId
      { status := some .failed, error := some msg,
        completedAt := some env.now } j hj
    refine ⟨?_, ?_, rfl, ?_⟩
    · intro x hx
      simp only [List.mem_singleton] at hx
      subst hx
      refine ⟨fun k hk => updateJobProgress_get_ne m jobId k _ hk,
        ⟨_, hget, ?_, ?_, ?_⟩⟩
      · simp [applyUpdate, hd0, hs0, hf0]
      · simp [applyUpdate, hs0, hf0]
      · simp [applyUpdate, JStatus.isTerminal]
    · refine List.chain'_cons.2 ⟨?_, List.chain'_singleton _⟩
      intro ja hja
      rw [hj] at hja
      cases hja
      refine ⟨_, hget, le_refl _, le_refl _, fun ht => ?_⟩
      rw [hst] at ht
      simp [JStatus.isTerminal] at ht
    · exact ⟨_, hget, by simp [applyUpdate, JStatus.isTerminal], by
        simp [applyUpdate]⟩
  rcases huf : env.userFound with _ | _
  · have hR : processRemindersInBackground env m jobId userId tenantIds
        method = ⟨updateJobProgress m jobId
          { status := some .failed, error := some "User not found",
            completedAt := some env.now },
          [updateJobProgress m jobId
            { status := some .failed, error := some "User not found",
              completedAt := some env.now }], []⟩ := by
      simp only [processRemindersInBackground, huf, Bool.not_false,
        if_pos]
    rw [hR]
    exact hfail "User not found"
  · rcases hq : (tenantQuery env.store tenantIds userId).length with _ | n
    · have hR : processRemindersInBackground env m jobId userId tenantIds
          method = ⟨updateJobProgress m jobId
            { status := some .failed, error := some "No valid tenants found",
              completedAt := some env.now },
            [updateJobProgress m jobId
              { status := some .failed,
                error := some "No valid tenants found",
                completedAt := some env.now }], []⟩ := by
        simp only [processRemindersInBackground, huf, Bool.not_true,
          if_neg, hq, if_pos, Bool.false_eq_true, ite_false]
      rw [hR]
      exact hfail "No valid tenants found"
    · -- main branch: total correction, loop, then finalisation
      set tenants := tenantQuery env.store tenantIds userId with htenants
      set eligibleTenants := (if method = Method.email then
        tenants.filter (fun t => t.email != "") else tenants)
        with helig
      set m1 := updateJobProgress m jobId
        { total := some eligibleTenants.length } with hm1
      have hgot1 := updateJobProgress_get_self m jobId
        { total := some eligibleTenants.length } j hj
      set j1 := applyUpdate j { total := some eligibleTenants.length }
        with hj1def
      clear_value tenants eligibleTenants m1 j1
      have hj1st : j1.status = .processing := by
        simp [hj1def, applyUpdate, hst]
      have hj1s : j1.sent = 0 := by simp [hj1def, applyUpdate, hs0]
      have hj1f : j1.failed = 0 := by simp [hj1def, applyUpdate, hf0]
      have hj1d : j1.details = [] := by simp [hj1def, applyUpdate, hd0]
      have hj1c : j1.completedAt = none := by
        simp [hj1def, applyUpdate, hc0]
      have hj1t : j1.total = eligibleTenants.length := by
        simp [hj1def, applyUpdate]
      have hlen1 : j1.details.length = 0 := by rw [hj1d]; rfl
      have hm1get : mapGet m1 jobId = some j1 := by
        rw [hm1]
        exact hgot1
      have hm1frame : ∀ k, k ≠ jobId → mapGet m1 k = mapGet m k := by
        rw [hm1]
        exact fun k hk => updateJobProgress_get_ne m jobId k _ hk
      have hm1mon : MonR jobId m m1 := by
        intro ja hja
        rw [hj] at hja
        cases hja
        refine ⟨j1, hm1get, by omega, by omega, fun ht => ?_⟩
        rw [hst] at ht
        simp [JStatus.isTerminal] at ht
      have hm1obs : ObsOK m m1 jobId := by
        refine ⟨hm1frame, j1, hm1get, ?_, ?_, ?_⟩
        · simp [hj1d, hj1s, hj1f]
        · simp [hj1s, hj1f]
        · simp [hj1c, hj1st, JStatus.isTerminal]
      have hlen : eligibleTenants.length ≤ j1.total := le_of_eq hj1t.symm
      obtain ⟨specC, specT⟩ := processLoop_spec env.tenv jobId
        eligibleTenants 0 0 m1 j1 hm1get hj1st
      rcases hloop : processLoop env.tenv jobId eligibleTenants 0 0 m1
        with ⟨m2, tc2, tr2, acts2⟩ | ⟨m2, msg2, tr2, acts2⟩
      · obtain ⟨⟨j2, hj2, hrel2, hsum2⟩, htr2, hoth2, hch2, hlast2⟩ :=
          specC _ _ _ _ hloop
        obtain ⟨⟨hid2, hst2, htot2, hsa2, hca2, her2⟩, _, _, hb2, he2⟩ :=
          hrel2
        have hR : processRemindersInBackground env m jobId userId
            tenantIds method = ⟨updateJobProgress m2 jobId
              { status := some .completed, totalCost := some tc2,
                completedAt := some env.now },
              m1 :: tr2 ++ [updateJobProgress m2 jobId
                { status := some .completed, totalCost := some tc2,
                  completedAt := some env.now }], acts2⟩ := by
          simp only [processRemindersInBackground, huf, Bool.not_true,
            Bool.false_eq_true, ite_false, ← htenants, hq,
            Nat.succ_ne_zero]
          rw [← helig, ← hm1]
          simp only [hloop, hj2]
        have hget3 := updateJobProgress_get_self m2 jobId
          { status := some .completed, totalCost := some tc2,
            completedAt := some env.now } j2 hj2
        set j3 := applyUpdate j2 { status := some JStatus.completed, totalCost := some tc2, completedAt := some env.now } with hj3def
        clear_value j3
        have hj3inv : j3.details.length = j3.sent + j3.failed ∧
            j3.sent + j3.failed ≤ j3.total ∧
            j3.completedAt.isSome = j3.status.isTerminal := by
          refine ⟨?_, ?_, ?_⟩
          · have hlen1 : j1.details.length = 0 := by rw [hj1d]; rfl
            have : j2.details.length = j2.sent + j2.failed := by omega
            simpa [hj3def, applyUpdate] using this
          · have : j2.sent + j2.failed ≤ j2.total := by
              rw [htot2, hj1t]
              omega
            simpa [hj3def, applyUpdate] using this
          · simp [hj3def, applyUpdate, JStatus.isTerminal]
        rw [hR]
        simp only [trace_mk, final_mk]
        refine ⟨?_, ?_, ?_, ?_⟩
        · intro x hx
          simp only [List.mem_cons, List.mem_append,
            List.mem_singleton, List.not_mem_nil, or_false] at hx
          rcases hx with (rfl | hx) | rfl
          · exact hm1obs
          · obtain ⟨jx, hjx, hrx⟩ := htr2 x hx
            obtain ⟨⟨_, hstx, htotx, _, hcax, _⟩, _, _, hbx, hex⟩ := hrx
            refine ⟨?_, jx, hjx, ?_, ?_, ?_⟩
            · intro k hk
              exact ((hoth2 k hk).2 x hx).trans (hm1frame k hk)
            · omega
            · rw [htotx, hj1t]; omega
            · rw [hcax, hj1c, hstx, hj1st]
              rfl
          · refine ⟨?_, j3, hget3, hj3inv⟩
            intro k hk
            exact (updateJobProgress_get_ne m2 jobId k _ hk).trans
              (((hoth2 k hk).1).trans (hm1frame k hk))
        · refine List.chain'_cons.2 ⟨hm1mon, ?_⟩
          have happ : List.Chain' (MonR jobId)
              ((m1 :: tr2) ++ [updateJobProgress m2 jobId
                { status := some .completed, totalCost := some tc2,
                  completedAt := some env.now }]) := by
            refine List.Chain'.append hch2
              (List.chain'_singleton _) ?_
            intro x hx y hy
            simp only [Option.mem_def, hlast2, Option.some.injEq] at hx
            simp only [Option.mem_def, List.head?_cons,
              Option.some.injEq] at hy
            rw [← hx, ← hy]
            intro ja hja
            rw [hj2] at hja
            cases hja
            refine ⟨j3, hget3, ?_, ?_, fun ht => ?_⟩
            · simp [hj3def, applyUpdate]
            · simp [hj3def, applyUpdate]
            · rw [hst2, hj1st] at ht
              simp [JStatus.isTerminal] at ht
          simpa using happ
        · rw [← List.cons_append, List.getLast?_append_cons]
          rfl
        · refine ⟨j3, hget3, ?_, ?_⟩
          · simp [hj3def, applyUpdate, JStatus.isTerminal]
          · simp [hj3def, applyUpdate]
      · obtain ⟨⟨j2, hj2, hrel2⟩, htr2, hoth2, hch2, hlast2⟩ :=
          specT _ _ _ _ hloop
        obtain ⟨⟨hid2, hst2, htot2, hsa2, hca2, her2⟩, _, _, hb2, he2⟩ :=
          hrel2
        have hR : processRemindersInBackground env m jobId userId
            tenantIds method = ⟨updateJobProgress m2 jobId
              { status := some .failed, error := some msg2,
                completedAt := some env.now },
              m1 :: tr2 ++ [updateJobProgress m2 jobId
                { status := some .failed, error := some msg2,
                  completedAt := some env.now }], acts2⟩ := by
          simp only [processRemindersInBackground, huf, Bool.not_true,
            Bool.false_eq_true, ite_false, ← htenants, hq,
            Nat.succ_ne_zero]
          rw [← helig, ← hm1]
          simp only [hloop]
        have hget3 := updateJobProgress_get_self m2 jobId
          { status := some .failed, error := some msg2,
            completedAt := some env.now } j2 hj2
        set j3 := applyUpdate j2 { status := some JStatus.failed, error := some msg2, completedAt := some env.now } with hj3def
        clear_value j3
        have hj3inv : j3.details.length = j3.sent + j3.failed ∧
            j3.sent + j3.failed ≤ j3.total ∧
            j3.completedAt.isSome = j3.status.isTerminal := by
          refine ⟨?_, ?_, ?_⟩
          · have hlen1 : j1.details.length = 0 := by rw [hj1d]; rfl
            have : j2.details.length = j2.sent + j2.failed := by omega
            simpa [hj3def, applyUpdate] using this
          · have : j2.sent + j2.failed ≤ j2.total := by
              rw [htot2, hj1t]
              omega
            simpa [hj3def, applyUpdate] using this
          · simp [hj3def, applyUpdate, JStatus.isTerminal]
        rw [hR]
        simp only [trace_mk, final_mk]
        refine ⟨?_, ?_, ?_, ?_⟩
        · intro x hx
          simp only [List.mem_cons, List.mem_append,
            List.mem_singleton, List.not_mem_nil, or_false] at hx
          rcases hx with (rfl | hx) | rfl
          · exact hm1obs
          · obtain ⟨jx, hjx, hrx⟩ := htr2 x hx
            obtain ⟨⟨_, hstx, htotx, _, hcax, _⟩, _, _, hbx, hex⟩ := hrx
            refine ⟨?_, jx, hjx, ?_, ?_, ?_⟩
            · intro k hk
              exact ((hoth2 k hk).2 x hx).trans (hm1frame k hk)
            · omega
            · rw [htotx, hj1t]; omega
            · rw [hcax, hj1c, hstx, hj1st]
              rfl
          · refine ⟨?_, j3, hget3, hj3inv⟩
            intro k hk
            exact (updateJobProgress_get_ne m2 jobId k _ hk).trans
              (((hoth2 k hk).1).trans (hm1frame k hk))
        · refine List.chain'_cons.2 ⟨hm1mon, ?_⟩
          have happ : List.Chain' (MonR jobId)
              ((m1 :: tr2) ++ [updateJobProgress m2 jobId
                { status := some .failed, error := some msg2,
                  completedAt := some env.now }]) := by
            refine List.Chain'.append hch2
              (List.chain'_singleton _) ?_
            intro x hx y hy
            simp only [Option.mem_def, hlast2, Option.some.injEq] at hx
            simp only [Option.mem_def, List.head?_cons,
              Option.some.injEq] at hy
            rw [← hx, ← hy]
            intro ja hja
            rw [hj2] at hja
            cases hja
            refine ⟨j3, hget3, ?_, ?_, fun ht => ?_⟩
            · simp [hj3def, applyUpdate]
            · simp [hj3def, applyUpdate]
            · rw [hst2, hj1st] at ht
              simp [JStatus.isTerminal] at ht
          simpa using happ
        · rw [← List.cons_append, List.getLast?_append_cons]
          rfl
        · refine ⟨j3, hget3, ?_, ?_⟩
          · simp [hj3def, applyUpdate, JStatus.isTerminal]
          · simp [hj3def, applyUpdate]

theorem chain'_head_rel {α : Type} {R : α → α → Prop}
    (htrans : ∀ a b c : α, R a b → R b c → R a c) :
    ∀ (a : α) (l : List α), List.Chain' R (a :: l) →
      ∀ (k : Nat) (hk : k < l.length), R a (l.get ⟨k, hk⟩) := by
  intro a l
  induction l generalizing a with
  | nil =>
    intro _ k hk
    exact absurd hk (by simp)
  | cons b l' ih =>
    intro hch k hk
    obtain ⟨hab, hch'⟩ := List.chain'_cons.1 hch
    cases k with
    | zero => exact hab
    | succ k' => exact htrans _ _ _ hab (ih b hch' k' (by simpa using hk))

theorem chain'_rel_of_le {α : Type} {R : α → α → Prop}
    (hrefl : ∀ a, R a a)
    (htrans : ∀ a b c : α, R a b → R b c → R a c) :
    ∀ (l : List α), List.Chain' R l → ∀ (i k : Nat) (hik : i ≤ k)
      (hk : k < l.length),
      R (l.get ⟨i, lt_of_le_of_lt hik hk⟩) (l.get ⟨k, hk⟩) := by
  intro l
  induction l with
  | nil =>
    intro _ i k hik hk
    exact absurd hk (by simp)
  | cons a l' ih =>
    intro hch i k hik hk
    cases k with
    | zero =>
      have hi : i = 0 := Nat.le_zero.1 hik
      subst hi
      exact hrefl a
    | succ k' =>
      cases i with
      | zero =>
        exact chain'_head_rel htrans a l' hch k' (by simpa using hk)
      | succ i' =>
        exact ih (List.Chain'.tail hch) i' k' (by omega)
          (by simpa using hk)

theorem catchRecover_actsOf (m : Registry) (jobId : String) (t : Tenant)
    (te : TenantEnv) (tc : Nat) (msg : String) :
    (catchRecover m jobId t te tc msg).actsOf = [] := by
  unfold catchRecover
  rcases te.logCreateCatch with msg2 | u
  · rfl
  · rcases mapGet m jobId with _ | job <;> rfl

theorem addActs_actsOf (a : List Act) (o : LoopOut) :
    (addActs a o).actsOf = a ++ o.actsOf := by
  cases o <;> rfl

theorem processOne_actsOf (m : Registry) (jobId : String) (t : Tenant)
    (te : TenantEnv) (tc : Nat) :
    (processOne m jobId t te tc).actsOf = [Act.send t.id] := by
  unfold processOne
  rw [addActs_actsOf]
  rcases hsr : te.sendResult with msg | r
  · simp [hsr, catchRecover_actsOf]
  · rcases hlc : te.logCreate with msg | u
    · simp [hsr, hlc, catchRecover_actsOf]
    · rcases hsv : (if r.success then te.tenantSave else ExcOr.ok ())
        with msg | u2
      · simp [hsr, hlc, hsv, catchRecover_actsOf]
      · rcases hmg : mapGet m jobId with _ | job
        · simp [hsr, hlc, hsv, hmg, catchRecover_actsOf]
        · simp [hsr, hlc, hsv, hmg, LoopOut.actsOf]

/-- Every channel action the dispatch loop emits is a send: the loop
performs no deliberate pause between recipients. -/
theorem processLoop_all_send (tenv : Nat → TenantEnv) (jobId : String) :
    ∀ (ts : List Tenant) (idx tc : Nat) (m : Registry),
      ((processLoop tenv jobId ts idx tc m).actsOf).all Act.isSend =
        true := by
  intro ts
  induction ts with
  | nil => intro idx tc m; rfl
  | cons t rest ih =>
    intro idx tc m
    have hone := processOne_actsOf m jobId t (tenv idx) tc
    rcases hpo : processOne m jobId t (tenv idx) tc with
      ⟨m1, tc1, tr1, a1⟩ | ⟨m1, msg1, tr1, a1⟩
    · have ha1 : a1 = [Act.send t.id] := by
        rw [hpo] at hone
        exact hone
      rcases hrest : processLoop tenv jobId rest (idx + 1) tc1 m1 with
        ⟨m2, tc2, tr2, a2⟩ | ⟨m2, msg2, tr2, a2⟩
      · have hr := ih (idx + 1) tc1 m1
        rw [hrest] at hr
        simp only [processLoop, hpo, hrest, LoopOut.actsOf]
        subst ha1
        simpa [Act.isSend] using hr
      · have hr := ih (idx + 1) tc1 m1
        rw [hrest] at hr
        simp only [processLoop, hpo, hrest, LoopOut.actsOf]
        subst ha1
        simpa [Act.isSend] using hr
    · have ha1 : a1 = [Act.send t.id] := by
        rw [hpo] at hone
        exact hone
      simp only [processLoop, hpo, LoopOut.actsOf]
      subst ha1
      simp [Act.isSend]

/-- A whole background run emits only sends, never a delay. -/
theorem run_all_send (env : ProcEnv) (m : Registry)
    (jobId userId : String) (tenantIds : List String) (method : Method) :
    ((processRemindersInBackground env m jobId userId tenantIds
      method).acts).all Act.isSend = true := by
  rcases huf : env.userFound with _ | _
  · simp only [processRemindersInBackground, huf, Bool.not_false,
      if_pos, acts_mk]
    rfl
  · rcases hq : (tenantQuery env.store tenantIds userId).length
      with _ | n
    · simp only [processRemindersInBackground, huf, Bool.not_true,
        Bool.false_eq_true, ite_false, hq, acts_mk]
      rfl
    · have hloopsend := processLoop_all_send env.tenv jobId
        (if method = Method.email then
          (tenantQuery env.store tenantIds userId).filter
            (fun t => t.email != "")
          else tenantQuery env.store tenantIds userId) 0 0
        (updateJobProgress m jobId
          { total := some (if method = Method.email then
              (tenantQuery env.store tenantIds userId).filter
                (fun t => t.email != "")
              else tenantQuery env.store tenantIds userId).length })
      rcases hloop : processLoop env.tenv jobId
          (if method = Method.email then
            (tenantQuery env.store tenantIds userId).filter
              (fun t => t.email != "")
            else tenantQuery env.store tenantIds userId) 0 0
          (updateJobProgress m jobId
            { total := some (if method = Method.email then
                (tenantQuery env.store tenantIds userId).filter
                  (fun t => t.email != "")
                else tenantQuery env.store tenantIds userId).length })
        with ⟨m2, tc2, tr2, a2⟩ | ⟨m2, msg2, tr2, a2⟩
      · rw [hloop] at hloopsend
        rcases hm2 : mapGet m2 jobId with _ | j2 <;>
          simp only [processRemindersInBackground, huf, Bool.not_true,
            Bool.false_eq_true, ite_false, hq, Nat.succ_ne_zero, hloop,
            hm2, acts_mk] <;> exact hloopsend
      · rw [hloop] at hloopsend
        simp only [processRemindersInBackground, huf, Bool.not_true,
          Bool.false_eq_true, ite_false, hq, Nat.succ_ne_zero, hloop,
          acts_mk]
        exact hloopsend

/-- The bulk SMS helper pauses 100 ms after every send. -/
theorem sendBulkSMS_delays (outcome : Nat → SendResult) :
    ∀ (msgs : List String) (idx : Nat),
      delayAfterEachSend (sendBulkSMS outcome msgs idx).2 = true := by
  intro msgs
  induction msgs with
  | nil => intro idx; rfl
  | cons d rest ih =>
    intro idx
    simp only [sendBulkSMS, delayAfterEachSend]
    exact ih (idx + 1)

/-- Evaluation of one iteration whose channel send returns a result,
whose audit write succeeds, and whose tenant save (if reached)
succeeds. -/
theorem processOne_result (m : Registry) (jobId : String) (t : Tenant)
    (te : TenantEnv) (tc : Nat) (j : Job) (r : SendResult)
    (hj : mapGet m jobId = some j) (hsr : te.sendResult = ExcOr.ok r)
    (hlc : te.logCreate = ExcOr.ok ())
    (hsv : te.tenantSave = ExcOr.ok ()) :
    processOne m jobId t te tc = .cont (mapSet m jobId (applyUpdate j
      { sent := some (if r.success then j.sent + 1 else j.sent)
        failed := some (if r.success then j.failed else j.failed + 1)
        details := some (j.details ++ [⟨t.id, t.name,
          if r.success then "sent" else "failed", r.cost, r.error⟩])
        totalCost := some (tc + r.cost) })) (tc + r.cost)
      [mapSet m jobId (applyUpdate j
        { sent := some (if r.success then j.sent + 1 else j.sent)
          failed := some (if r.success then j.failed else j.failed + 1)
          details := some (j.details ++ [⟨t.id, t.name,
            if r.success then "sent" else "failed", r.cost, r.error⟩])
          totalCost := some (tc + r.cost) })] [Act.send t.id] := by
  have hsv' : (if r.success then te.tenantSave else ExcOr.ok ()) =
      ExcOr.ok () := by
    rcases r.success <;> simp [hsv]
  simp only [processOne, hsr, hlc, hsv', hj,
    updateJobProgress_get_eq m jobId _ j hj, addActs_cont,
    List.append_nil]

/-- Evaluation of one iteration that raises out of its `try` block
(here: the channel send raises) while the catch handler's audit write
succeeds: the recipient is recorded as one failed detail with the
captured message and the loop continues. -/
theorem processOne_raise_caught (m : Registry) (jobId : String)
    (t : Tenant) (te : TenantEnv) (tc : Nat) (j : Job) (msg : String)
    (hj : mapGet m jobId = some j)
    (hsr : te.sendResult = ExcOr.raise msg)
    (hcc : te.logCreateCatch = ExcOr.ok ()) :
    processOne m jobId t te tc = .cont (mapSet m jobId (applyUpdate j
      { failed := some (j.failed + 1)
        details := some (j.details ++
          [⟨t.id, t.name, "failed", 0, some msg⟩]) })) tc
      [mapSet m jobId (applyUpdate j
        { failed := some (j.failed + 1)
          details := some (j.details ++
            [⟨t.id, t.name, "failed", 0, some msg⟩]) })]
      [Act.send t.id] := by
  simp only [processOne, hsr, catchRecover, hcc, hj,
    updateJobProgress_get_eq m jobId _ j hj, addActs_cont,
    List.append_nil]

/-- Evaluation of one iteration whose success-path audit write
(`ReminderLog.create`) raises while the catch handler's audit write
succeeds: the successful send is nevertheless recorded as a failed
detail, and the loop continues. -/
theorem processOne_logCreate_raise_caught (m : Registry)
    (jobId : String) (t : Tenant) (te : TenantEnv) (tc : Nat) (j : Job)
    (r : SendResult) (msg : String) (hj : mapGet m jobId = some j)
    (hsr : te.sendResult = ExcOr.ok r)
    (hlc : te.logCreate = ExcOr.raise msg)
    (hcc : te.logCreateCatch = ExcOr.ok ()) :
    processOne m jobId t te tc = .cont (mapSet m jobId (applyUpdate j
      { failed := some (j.failed + 1)
        details := some (j.details ++
          [⟨t.id, t.name, "failed", 0, some msg⟩]) })) tc
      [mapSet m jobId (applyUpdate j
        { failed := some (j.failed + 1)
          details := some (j.details ++
            [⟨t.id, t.name, "failed", 0, some msg⟩]) })]
      [Act.send t.id] := by
  simp only [processOne, hsr, hlc, catchRecover, hcc, hj,
    updateJobProgress_get_eq m jobId _ j hj, addActs_cont,
    List.append_nil]

/-- Evaluation of one iteration where the `try` block raises and the
catch handler's own audit write raises as well: the exception escapes
the per-recipient handler, aborting the loop. -/
theorem processOne_catch_raise (m : Registry) (jobId : String)
    (t : Tenant) (te : TenantEnv) (tc : Nat) (msg msg2 : String)
    (hsr : te.sendResult = ExcOr.raise msg)
    (hcc : te.logCreateCatch = ExcOr.raise msg2) :
    processOne m jobId t te tc =
      .thrown m msg2 [] [Act.send t.id] := by
  simp only [processOne, hsr, catchRecover, hcc, addActs_thrown,
    List.append_nil]

/-- Same as `processOne_catch_raise`, when it is the success-path audit
write that raises first. -/
theorem processOne_logCreate_catch_raise (m : Registry)
    (jobId : String) (t : Tenant) (te : TenantEnv) (tc : Nat)
    (r : SendResult) (msg msg2 : String)
    (hsr : te.sendResult = ExcOr.ok r)
    (hlc : te.logCreate = ExcOr.raise msg)
    (hcc : te.logCreateCatch = ExcOr.raise msg2) :
    processOne m jobId t te tc =
      .thrown m msg2 [] [Act.send t.id] := by
  simp only [processOne, hsr, hlc, catchRecover, hcc, addActs_thrown,
    List.append_nil]

/-- When the catch handler's audit write succeeds and the job is
present, an iteration never throws. -/
theorem processOne_ne_thrown (m : Registry) (jobId : String)
    (t : Tenant) (te : TenantEnv) (tc : Nat) (j : Job)
    (hj : mapGet m jobId = some j)
    (hcc : te.logCreateCatch = ExcOr.ok ()) :
    ∀ m' msg tr acts,
      processOne m jobId t te tc ≠ .thrown m' msg tr acts := by
  intro m' msg tr acts hcon
  have hcr : ∀ msg0 : String, ∃ mm,
      catchRecover m jobId t te tc msg0 = .cont mm tc [mm] [] := by
    intro msg0
    simp only [catchRecover, hcc, hj]
    exact ⟨_, rfl⟩
  rcases hsr : te.sendResult with msg0 | r
  · obtain ⟨mm, hmm⟩ := hcr msg0
    simp only [processOne, hsr, hmm, addActs_cont] at hcon
    exact LoopOut.noConfusion hcon
  · rcases hlc : te.logCreate with msg0 | u
    · obtain ⟨mm, hmm⟩ := hcr msg0
      simp only [processOne, hsr, hlc, hmm, addActs_cont] at hcon
      exact LoopOut.noConfusion hcon
    · rcases hsv : (if r.success then te.tenantSave else ExcOr.ok ())
        with msg0 | u2
      · obtain ⟨mm, hmm⟩ := hcr msg0
        simp only [processOne, hsr, hlc, hsv, hmm, addActs_cont] at hcon
        exact LoopOut.noConfusion hcon
      · simp only [processOne, hsr, hlc, hsv, hj, addActs_cont] at hcon
        exact LoopOut.noConfusion hcon

/-- When every catch-handler audit write succeeds and the job is
present, the whole loop never throws. -/
theorem processLoop_ne_thrown (tenv : Nat → TenantEnv) (jobId : String)
    (hcc : ∀ i, (tenv i).logCreateCatch = ExcOr.ok ()) :
    ∀ (ts : List Tenant) (idx tc : Nat) (m : Registry) (j : Job),
      mapGet m jobId = some j →
      ∀ m' msg tr acts,
        processLoop tenv jobId ts idx tc m ≠ .thrown m' msg tr acts := by
  intro ts
  induction ts with
  | nil =>
    intro idx tc m j hj m' msg tr acts h
    simp only [processLoop] at h
    exact LoopOut.noConfusion h
  | cons t rest ih =>
    intro idx tc m j hj m' msg tr acts h
    rcases processOne_spec m jobId t (tenv idx) tc j hj with
      ⟨msg0, hpo⟩ | ⟨j1, tc1, hpo, hstep⟩
    · exact processOne_ne_thrown m jobId t (tenv idx) tc j hj
        (hcc idx) _ _ _ _ hpo
    · rcases hrest : processLoop tenv jobId rest (idx + 1) tc1
          (mapSet m jobId j1) with ⟨m2, tc2, tr2, a2⟩ |
            ⟨m2, msg2, tr2, a2⟩
      · simp only [processLoop, hpo, hrest] at h
        exact LoopOut.noConfusion h
      · exact ih (idx + 1) tc1 (mapSet m jobId j1) j1
          (mapGet_mapSet_self m jobId j1) _ _ _ _ hrest

/-- Claim C10: job status and detail queries are keyed only by the job
id with no ownership check: for every registry and every pair of
authenticated requesting users, the summary handler and the detail
handler return exactly the same response (including per-tenant names
and error messages) regardless of which user issues the query. -/
theorem c10_job_queries_ignore_requester (m : Registry)
    (jid u v : String) :
    getJobStatusHandler m ⟨jid, u⟩ = getJobStatusHandler m ⟨jid, v⟩ ∧
      getJobDetailsHandler m ⟨jid, u⟩ = getJobDetailsHandler m ⟨jid, v⟩ :=
  ⟨rfl, rfl⟩

/-- Claim C8 counterexample: calling `createReminderJob` with an id
that already exists does NOT leave the existing record unchanged — the
completed job stored under "j" is replaced by a fresh `processing`
record with zeroed counters. -/
theorem c8_cex_create_replaces_record :
    mapGet (createReminderJob [("j", doneJob)] "j" 3 20) "j" =
      some ⟨"j", .processing, 3, 0, 0, [], 0, 20, none, none⟩ ∧
    mapGet (createReminderJob [("j", doneJob)] "j" 3 20) "j" ≠
      some doneJob := by
  constructor
  · decide
  · decide

/-- Claim C8 (amended): `createReminderJob` on an id already present in
the registry does not throw, but instead of leaving the record
unchanged it overwrites the binding with a fresh record
(`status=processing`, zero counters, empty details, new `startedAt`,
`completedAt=null`); bindings of every other id are untouched. -/
theorem c8_create_overwrites_existing (m : Registry) (jobId : String)
    (totalCount now : Nat) :
    mapGet (createReminderJob m jobId totalCount now) jobId =
      some ⟨jobId, .processing, totalCount, 0, 0, [], 0, now,
        none, none⟩ ∧
    ∀ k, k ≠ jobId →
      mapGet (createReminderJob m jobId totalCount now) k =
        mapGet m k :=
  ⟨create_get_self m jobId totalCount now,
    fun k hk => create_get_ne m jobId k totalCount now hk⟩

/-- Witness for `c8_create_overwrites_existing` at a concrete
registry. -/
theorem c8_witness :
    (("a" : String) ≠ "j") ∧
    (mapGet (createReminderJob [("j", doneJob), ("a", doneJob)] "j" 3 20)
        "j" = some ⟨"j", .processing, 3, 0, 0, [], 0, 20, none, none⟩) ∧
    mapGet (createReminderJob [("j", doneJob), ("a", doneJob)] "j" 3 20)
        "a" = mapGet [("j", doneJob), ("a", doneJob)] "a" :=
  ⟨by decide,
    (c8_create_overwrites_existing [("j", doneJob), ("a", doneJob)]
      "j" 3 20).1,
    (c8_create_overwrites_existing [("j", doneJob), ("a", doneJob)]
      "j" 3 20).2 "a" (by decide)⟩

/-- Claim C9 counterexample: a dispatch run that sends to three
recipients emits its three channel sends back to back, with no delay
between any pair of consecutive sends. -/
theorem c9_cex_no_delay_between_sends :
    (runJob envAllOK [] "job1" "u1" ["t1", "t2", "t3"]
      Method.sms 3).acts =
      [Act.send "t1", Act.send "t2", Act.send "t3"] ∧
    delayAfterEachSend (runJob envAllOK [] "job1" "u1" ["t1", "t2", "t3"]
      Method.sms 3).acts = false := by
  constructor
  · decide
  · decide

/-- Claim C9 (amended): the dispatch loop performs no delay at all
between consecutive channel sends — every action a background run
emits is a send; the fixed 100 ms inter-send pause exists only in the
bulk helper `sendBulkSMS`, which pauses after every send (so its
consecutive sends are always separated by a delay), and which the
dispatch loop does not use. -/
theorem c9_delay_only_in_bulk_helper :
    (∀ (env : ProcEnv) (m : Registry) (jobId userId : String)
      (tenantIds : List String) (method : Method),
      ((processRemindersInBackground env m jobId userId tenantIds
        method).acts).all Act.isSend = true) ∧
    (∀ (outcome : Nat → SendResult) (msgs : List String) (idx : Nat),
      delayAfterEachSend (sendBulkSMS outcome msgs idx).2 = true) :=
  ⟨fun env m jobId userId tenantIds method =>
      run_all_send env m jobId userId tenantIds method,
    fun outcome msgs idx => sendBulkSMS_delays outcome msgs idx⟩

/-- Claim C2: at every observation point of a dispatch run — job
creation, the total correction, every per-recipient update and the
final update — every job in the registry satisfies
`0 ≤ sent + failed ≤ total` and `details.length = sent + failed`
(no result recorded twice, none skipped), provided every pre-existing
job already satisfied the invariant. -/
theorem c2_counter_detail_invariant (env : ProcEnv) (m0 : Registry)
    (jobId userId : String) (tenantIds : List String) (method : Method)
    (totalCount : Nat)
    (h0 : ∀ p ∈ m0, p.2.sent + p.2.failed ≤ p.2.total ∧
      p.2.details.length = p.2.sent + p.2.failed) :
    ∀ x ∈ obsTrace env m0 jobId userId tenantIds method totalCount,
      ∀ k jx, mapGet x k = some jx →
        (0 ≤ jx.sent + jx.failed ∧ jx.sent + jx.failed ≤ jx.total) ∧
        jx.details.length = jx.sent + jx.failed := by
  intro x hx k jx hk
  have hfresh := create_get_self m0 jobId totalCount env.now
  obtain ⟨hobs, hchain, hlast, hfin⟩ := run_trace_spec env
    (createReminderJob m0 jobId totalCount env.now) jobId userId
    tenantIds method _ hfresh rfl rfl rfl rfl rfl
  simp only [obsTrace, runJob, List.mem_cons] at hx
  rcases hx with rfl | hx
  · by_cases hkj : k = jobId
    · subst hkj
      rw [hfresh] at hk
      cases hk
      simp
    · rw [create_get_ne m0 jobId k totalCount env.now hkj] at hk
      have h := h0 (k, jx) (mapGet_mem m0 k jx hk)
      exact ⟨⟨Nat.zero_le _, h.1⟩, h.2⟩
  · obtain ⟨hframe, jx', hjx', hd, hb, _⟩ := hobs x hx
    by_cases hkj : k = jobId
    · subst hkj
      rw [hjx'] at hk
      cases hk
      exact ⟨⟨Nat.zero_le _, hb⟩, hd⟩
    · rw [hframe k hkj,
        create_get_ne m0 jobId k totalCount env.now hkj] at hk
      have h := h0 (k, jx) (mapGet_mem m0 k jx hk)
      exact ⟨⟨Nat.zero_le _, h.1⟩, h.2⟩

/-- Witness for `c2_counter_detail_invariant` on a concrete
three-recipient run from an empty registry. -/
theorem c2_witness :
    (∀ p ∈ ([] : Registry), p.2.sent + p.2.failed ≤ p.2.total ∧
      p.2.details.length = p.2.sent + p.2.failed) ∧
    (∀ x ∈ obsTrace envAllOK [] "job1" "u1" ["t1", "t2", "t3"]
        Method.sms 3,
      ∀ k jx, mapGet x k = some jx →
        (0 ≤ jx.sent + jx.failed ∧ jx.sent + jx.failed ≤ jx.total) ∧
        jx.details.length = jx.sent + jx.failed) :=
  ⟨by decide,
    c2_counter_detail_invariant envAllOK [] "job1" "u1"
      ["t1", "t2", "t3"] Method.sms 3 (by decide)⟩

/-- Claim C5: at every observation point of a dispatch run,
`completedAt` is non-null exactly when `status` is terminal (for every
job in the registry, provided pre-existing jobs satisfied this); and
every exit path of the loop, the outermost handler included, leaves
the target job terminal with `completedAt` set — never stuck in
`processing`. -/
theorem c5_completedAt_iff_terminal (env : ProcEnv) (m0 : Registry)
    (jobId userId : String) (tenantIds : List String) (method : Method)
    (totalCount : Nat)
    (h0 : ∀ p ∈ m0, p.2.completedAt.isSome = p.2.status.isTerminal) :
    (∀ x ∈ obsTrace env m0 jobId userId tenantIds method totalCount,
      ∀ k jx, mapGet x k = some jx →
        jx.completedAt.isSome = jx.status.isTerminal) ∧
    (∃ jf, mapGet (runJob env m0 jobId userId tenantIds method
        totalCount).final jobId = some jf ∧
      jf.status.isTerminal = true ∧ jf.completedAt ≠ none) := by
  have hfresh := create_get_self m0 jobId totalCount env.now
  obtain ⟨hobs, hchain, hlast, hfin⟩ := run_trace_spec env
    (createReminderJob m0 jobId totalCount env.now) jobId userId
    tenantIds method _ hfresh rfl rfl rfl rfl rfl
  constructor
  · intro x hx k jx hk
    simp only [obsTrace, runJob, List.mem_cons] at hx
    rcases hx with rfl | hx
    · by_cases hkj : k = jobId
      · subst hkj
        rw [hfresh] at hk
        cases hk
        rfl
      · rw [create_get_ne m0 jobId k totalCount env.now hkj] at hk
        exact h0 (k, jx) (mapGet_mem m0 k jx hk)
    · obtain ⟨hframe, jx', hjx', _, _, hca⟩ := hobs x hx
      by_cases hkj : k = jobId
      · subst hkj
        rw [hjx'] at hk
        cases hk
        exact hca
      · rw [hframe k hkj,
          create_get_ne m0 jobId k totalCount env.now hkj] at hk
        exact h0 (k, jx) (mapGet_mem m0 k jx hk)
  · obtain ⟨jf, hjf, hterm, hca⟩ := hfin
    exact ⟨jf, hjf, hterm, by rw [hca]; exact Option.some_ne_none _⟩

/-- Witness for `c5_completedAt_iff_terminal` on a concrete
three-recipient run from an empty registry. -/
theorem c5_witness :
    (∀ p ∈ ([] : Registry),
      p.2.completedAt.isSome = p.2.status.isTerminal) ∧
    ((∀ x ∈ obsTrace envAllOK [] "job1" "u1" ["t1", "t2", "t3"]
        Method.sms 3,
      ∀ k jx, mapGet x k = some jx →
        jx.completedAt.isSome = jx.status.isTerminal) ∧
    (∃ jf, mapGet (runJob envAllOK [] "job1" "u1" ["t1", "t2", "t3"]
        Method.sms 3).final "job1" = some jf ∧
      jf.status.isTerminal = true ∧ jf.completedAt ≠ none)) :=
  ⟨by decide,
    c5_completedAt_iff_terminal envAllOK [] "job1" "u1"
      ["t1", "t2", "t3"] Method.sms 3 (by decide)⟩

/-- Claim C6: between any two observation points `i ≤ k` of a dispatch
run, the target job's `sent` and `failed` counters never decrease, and
if the job is already terminal at point `i` then its counters, details,
total cost and status are identical at point `k` — terminal jobs never
change again. -/
theorem c6_counters_monotone_then_frozen (env : ProcEnv) (m0 : Registry)
    (jobId userId : String) (tenantIds : List String) (method : Method)
    (totalCount : Nat) (i k : Nat) (hik : i ≤ k)
    (hk : k < (obsTrace env m0 jobId userId tenantIds method
      totalCount).length) (ji : Job)
    (hji : mapGet ((obsTrace env m0 jobId userId tenantIds method
      totalCount).get ⟨i, lt_of_le_of_lt hik hk⟩) jobId = some ji) :
    ∃ jk, mapGet ((obsTrace env m0 jobId userId tenantIds method
        totalCount).get ⟨k, hk⟩) jobId = some jk ∧
      ji.sent ≤ jk.sent ∧ ji.failed ≤ jk.failed ∧
      (ji.status.isTerminal = true →
        jk.sent = ji.sent ∧ jk.failed = ji.failed ∧
        jk.details = ji.details ∧ jk.totalCost = ji.totalCost ∧
        jk.status = ji.status) := by
  have hfresh := create_get_self m0 jobId totalCount env.now
  obtain ⟨hobs, hchain, hlast, hfin⟩ := run_trace_spec env
    (createReminderJob m0 jobId totalCount env.now) jobId userId
    tenantIds method _ hfresh rfl rfl rfl rfl rfl
  have hrel := chain'_rel_of_le (MonR_refl jobId)
    (fun a b c h1 h2 => MonR_trans h1 h2) _ hchain i k hik hk
  exact hrel ji hji

/-- Witness for `c6_counters_monotone_then_frozen` between the first
and fourth snapshot of a concrete run. -/
theorem c6_witness :
    (0 ≤ 3) ∧
    (∃ jk, mapGet ((obsTrace envAllOK [] "job1" "u1" ["t1", "t2", "t3"]
        Method.sms 3).get ⟨3, by decide⟩) "job1" = some jk ∧
      (⟨"job1", .processing, 3, 0, 0, [], 0, 5, none, none⟩ :
        Job).sent ≤ jk.sent ∧
      (⟨"job1", .processing, 3, 0, 0, [], 0, 5, none, none⟩ :
        Job).failed ≤ jk.failed ∧
      ((⟨"job1", .processing, 3, 0, 0, [], 0, 5, none, none⟩ :
          Job).status.isTerminal = true →
        jk.sent = 0 ∧ jk.failed = 0 ∧ jk.details = [] ∧
        jk.totalCost = 0 ∧ jk.status = .processing)) :=
  ⟨by decide,
    c6_counters_monotone_then_frozen envAllOK [] "job1" "u1"
      ["t1", "t2", "t3"] Method.sms 3 0 3 (by decide) (by decide)
      ⟨"job1", .processing, 3, 0, 0, [], 0, 5, none, none⟩ (by decide)⟩

/-- Claim C1: a failure raised while processing one recipient is
isolated.  For any run whose resolved eligible recipients are exactly
`[t1, t2, t3]`, where the channel sender raises for recipient #2 and
behaves normally (successful sends, working audit writes and saves)
for recipients #1 and #3, the job still reaches `status=completed`,
`details` has exactly 3 entries in the order of the resolved recipient
list, entry 2 is `failed` with the captured (non-null) error message,
`sent = 2` and `failed = 1` — the loop never exits early on the
individual failure. -/
theorem c1_channel_failure_isolated (env : ProcEnv) (m0 : Registry)
    (jobId userId : String) (tenantIds : List String) (method : Method)
    (totalCount : Nat) (t1 t2 t3 : Tenant) (r1 r3 : SendResult)
    (msg : String)
    (huf : env.userFound = true)
    (hq : tenantQuery env.store tenantIds userId ≠ [])
    (helig : (if method = Method.email then
        (tenantQuery env.store tenantIds userId).filter
          (fun t => t.email != "")
        else tenantQuery env.store tenantIds userId) = [t1, t2, t3])
    (h1s : (env.tenv 0).sendResult = ExcOr.ok r1)
    (h1r : r1.success = true)
    (h1l : (env.tenv 0).logCreate = ExcOr.ok ())
    (h1v : (env.tenv 0).tenantSave = ExcOr.ok ())
    (h2s : (env.tenv 1).sendResult = ExcOr.raise msg)
    (h2c : (env.tenv 1).logCreateCatch = ExcOr.ok ())
    (h3s : (env.tenv 2).sendResult = ExcOr.ok r3)
    (h3r : r3.success = true)
    (h3l : (env.tenv 2).logCreate = ExcOr.ok ())
    (h3v : (env.tenv 2).tenantSave = ExcOr.ok ()) :
    ∃ jf, mapGet (runJob env m0 jobId userId tenantIds method
        totalCount).final jobId = some jf ∧
      jf.status = .completed ∧ jf.sent = 2 ∧ jf.failed = 1 ∧
      jf.details = [⟨t1.id, t1.name, "sent", r1.cost, r1.error⟩,
        ⟨t2.id, t2.name, "failed", 0, some msg⟩,
        ⟨t3.id, t3.name, "sent", r3.cost, r3.error⟩] ∧
      jf.completedAt = some env.now ∧ jf.error = none := by
  have hfresh := create_get_self m0 jobId totalCount env.now
  have hq0 : ((tenantQuery env.store tenantIds userId).length = 0) =
      False := by
    simp only [eq_iff_iff, iff_false]
    simpa [List.length_eq_zero] using hq
  simp [runJob, processRemindersInBackground, processLoop, processOne,
    catchRecover, updateJobProgress, addActs, logEvent, applyUpdate,
    huf, hq0, helig, h1s, h1l, h1v, h1r, h2s, h2c, h3s, h3l, h3v, h3r,
    hfresh, mapGet_mapSet_self]

/-- Witness for `c1_channel_failure_isolated` on a concrete run where
recipient #2's send raises "boom". -/
theorem c1_witness :
    ((envC1.tenv 1).sendResult = ExcOr.raise "boom") ∧
    (∃ jf, mapGet (runJob envC1 [] "job1" "u1" ["t1", "t2", "t3"]
        Method.sms 3).final "job1" = some jf ∧
      jf.status = .completed ∧ jf.sent = 2 ∧ jf.failed = 1 ∧
      jf.details = [⟨tenantA.id, tenantA.name, "sent", 50, none⟩,
        ⟨tenantB.id, tenantB.name, "failed", 0, some "boom"⟩,
        ⟨tenantC.id, tenantC.name, "sent", 50, none⟩] ∧
      jf.completedAt = some envC1.now ∧ jf.error = none) :=
  ⟨by decide,
    c1_channel_failure_isolated envC1 [] "job1" "u1" ["t1", "t2", "t3"]
      Method.sms 3 tenantA tenantB tenantC ⟨true, 50, none⟩
      ⟨true, 50, none⟩ "boom" (by decide) (by decide) (by decide)
      (by decide) (by decide) (by decide) (by decide) (by decide)
      (by decide) (by decide) (by decide) (by decide) (by decide)⟩

/-- Claim C4 counterexample: with `method=email` and a resolved,
owner-matching tenant set whose members all lack an e-mail address (so
the eligible set in the claim's sense is empty), the job does NOT go to
`status=failed` with an error — it completes with `status=completed`,
`total=0` and a null error. -/
theorem c4_cex_email_filter_completes :
    (jobAt (runJob envNoMail [] "job1" "u1" ["t4"] Method.email 1).final
      "job1").status = JStatus.completed ∧
    (jobAt (runJob envNoMail [] "job1" "u1" ["t4"] Method.email 1).final
      "job1").error = none ∧
    (jobAt (runJob envNoMail [] "job1" "u1" ["t4"] Method.email 1).final
      "job1").total = 0 := by
  refine ⟨?_, ?_, ?_⟩ <;> decide

/-- Claim C4 (amended): if the initiating user cannot be resolved, or
no owner-matching non-deleted tenant is found, the job transitions
directly to `status=failed` with a non-null error and `completedAt`
set, `details` stays empty and no channel send is performed.  But when
`method=email` and the e-mail filter empties a non-empty resolved set,
the job instead completes: `status=completed`, `total=0`, empty
details, null error, and still no channel send. -/
theorem c4_empty_resolution (env : ProcEnv) (m0 : Registry)
    (jobId userId : String) (tenantIds : List String) (method : Method)
    (totalCount : Nat) :
    (env.userFound = false →
      ∃ jf, mapGet (runJob env m0 jobId userId tenantIds method
          totalCount).final jobId = some jf ∧
        jf.status = .failed ∧ jf.error = some "User not found" ∧
        jf.completedAt = some env.now ∧ jf.details = [] ∧
        (runJob env m0 jobId userId tenantIds method
          totalCount).acts = []) ∧
    (env.userFound = true →
      tenantQuery env.store tenantIds userId = [] →
      ∃ jf, mapGet (runJob env m0 jobId userId tenantIds method
          totalCount).final jobId = some jf ∧
        jf.status = .failed ∧ jf.error = some "No valid tenants found" ∧
        jf.completedAt = some env.now ∧ jf.details = [] ∧
        (runJob env m0 jobId userId tenantIds method
          totalCount).acts = []) ∧
    (env.userFound = true → method = Method.email →
      tenantQuery env.store tenantIds userId ≠ [] →
      (tenantQuery env.store tenantIds userId).filter
        (fun t => t.email != "") = [] →
      ∃ jf, mapGet (runJob env m0 jobId userId tenantIds method
          totalCount).final jobId = some jf ∧
        jf.status = .completed ∧ jf.error = none ∧ jf.total = 0 ∧
        jf.sent = 0 ∧ jf.failed = 0 ∧ jf.details = [] ∧
        jf.completedAt = some env.now ∧
        (runJob env m0 jobId userId tenantIds method
          totalCount).acts = []) := by
  have hfresh := create_get_self m0 jobId totalCount env.now
  refine ⟨?_, ?_, ?_⟩
  · intro huf
    simp [runJob, processRemindersInBackground, updateJobProgress,
      applyUpdate, huf, hfresh, mapGet_mapSet_self]
  · intro huf hq
    simp [runJob, processRemindersInBackground, updateJobProgress,
      applyUpdate, huf, hq, hfresh, mapGet_mapSet_self]
  · intro huf hmeth hne hfil
    subst hmeth
    have hq0 : ((tenantQuery env.store tenantIds userId).length = 0) =
        False := by
      simp only [eq_iff_iff, iff_false]
      simpa [List.length_eq_zero] using hne
    simp [runJob, processRemindersInBackground, processLoop, logEvent,
      updateJobProgress, applyUpdate, huf, hq0, hfil, hfresh,
      mapGet_mapSet_self]

/-- Witness for `c4_empty_resolution`, exercising the user-not-found
leg and the email-filtered leg on concrete runs. -/
theorem c4_witness :
    (envUserGone.userFound = false) ∧
    (∃ jf, mapGet (runJob envUserGone [] "job1" "u1" ["t1"] Method.sms
        1).final "job1" = some jf ∧
      jf.status = .failed ∧ jf.error = some "User not found" ∧
      jf.completedAt = some envUserGone.now ∧ jf.details = [] ∧
      (runJob envUserGone [] "job1" "u1" ["t1"] Method.sms 1).acts =
        []) ∧
    (∃ jf, mapGet (runJob envNoMail [] "job1" "u1" ["t4"] Method.email
        1).final "job1" = some jf ∧
      jf.status = .completed ∧ jf.error = none ∧ jf.total = 0 ∧
      jf.sent = 0 ∧ jf.failed = 0 ∧ jf.details = [] ∧
      jf.completedAt = some envNoMail.now ∧
      (runJob envNoMail [] "job1" "u1" ["t4"] Method.email 1).acts =
        []) :=
  ⟨rfl,
    (c4_empty_resolution envUserGone [] "job1" "u1" ["t1"] Method.sms
      1).1 rfl,
    (c4_empty_resolution envNoMail [] "job1" "u1" ["t4"] Method.email
      1).2.2 rfl rfl (by decide) (by decide)⟩

/-- Claim C7 counterexample: the top-level `error` field is NOT set
only before any recipient is processed.  With two recipients where the
first is processed successfully and the second's send raises while its
catch-handler audit write raises too, the exception reaches the
outermost handler after one detail was already recorded: the final job
has a non-null `error` AND a non-empty `details` list. -/
theorem c7_cex_error_after_details :
    (jobAt (runJob envCatchDown [] "job1" "u1" ["t1", "t2"]
      Method.sms 2).final "job1").error = some "db down" ∧
    (jobAt (runJob envCatchDown [] "job1" "u1" ["t1", "t2"]
      Method.sms 2).final "job1").details =
      [⟨"t1", "Alice", "sent", 50, none⟩] := by
  constructor
  · decide
  · decide

/-- Claim C7 (amended): provided no catch-handler audit write raises
(the reminder-log write in the per-recipient `catch` block succeeds
for every recipient), the top-level `error` field is set only when the
job fails before any recipient is processed: a final job with a
non-null `error` has empty `details` and zero counters.  (Without that
proviso the property fails, see the counterexample: a catch-handler
audit failure reaches the outermost handler after details were
recorded.) -/
theorem c7_error_only_before_any_detail (env : ProcEnv) (m0 : Registry)
    (jobId userId : String) (tenantIds : List String) (method : Method)
    (totalCount : Nat)
    (hcc : ∀ i, (env.tenv i).logCreateCatch = ExcOr.ok ()) (jf : Job)
    (hjf : mapGet (runJob env m0 jobId userId tenantIds method
      totalCount).final jobId = some jf)
    (herr : jf.error ≠ none) :
    jf.details = [] ∧ jf.sent = 0 ∧ jf.failed = 0 := by
  have hfresh := create_get_self m0 jobId totalCount env.now
  rcases huf : env.userFound with _ | _
  · simp [runJob, processRemindersInBackground, updateJobProgress,
      applyUpdate, huf, hfresh, mapGet_mapSet_self] at hjf
    subst hjf
    exact ⟨rfl, rfl, rfl⟩
  · rcases hq : (tenantQuery env.store tenantIds userId).length
      with _ | n
    · simp [runJob, processRemindersInBackground, updateJobProgress,
        applyUpdate, huf, hq, hfresh, mapGet_mapSet_self] at hjf
      subst hjf
      exact ⟨rfl, rfl, rfl⟩
    · set fresh : Job := ⟨jobId, JStatus.processing, totalCount, 0, 0, [], 0, env.now, none, none⟩ with hfr
      set E := (if method = Method.email then (tenantQuery env.store tenantIds userId).filter (fun t => t.email != "") else tenantQuery env.store tenantIds userId) with hE
      set M2 := updateJobProgress (createReminderJob m0 jobId totalCount env.now) jobId { total := some E.length } with hM2
      have hg1 : mapGet M2 jobId =
          some (applyUpdate fresh { total := some E.length }) := by
        rw [hM2]
        exact updateJobProgress_get_self _ jobId _ fresh hfresh
      have hst1 : (applyUpdate fresh { total := some E.length }).status =
          .processing := by
        simp [applyUpdate, hfr]
      rcases hloop : processLoop env.tenv jobId E 0 0 M2 with
        ⟨m2, tc2, tr2, a2⟩ | ⟨m2, msg2, tr2, a2⟩
      · obtain ⟨specC, _⟩ := processLoop_spec env.tenv jobId E 0 0 M2 _
          hg1 hst1
        obtain ⟨⟨j2, hj2, hrel2, _⟩, _, _, _, _⟩ := specC _ _ _ _ hloop
        have herr2 : j2.error = none := by
          obtain ⟨⟨_, _, _, _, _, he⟩, _⟩ := hrel2
          rw [he]
          simp [applyUpdate, hfr]
        simp only [runJob, processRemindersInBackground, huf,
          Bool.not_true, Bool.false_eq_true, ite_false, hq,
          Nat.succ_ne_zero, ← hE, ← hM2, hloop, hj2, final_mk] at hjf
        rw [updateJobProgress_get_eq m2 jobId _ j2 hj2,
          mapGet_mapSet_self, Option.some.injEq] at hjf
        have hjerr : jf.error = none := by
          rw [← hjf]
          simp [applyUpdate, herr2]
        exact absurd hjerr herr
      · exact absurd hloop (processLoop_ne_thrown env.tenv jobId hcc E
          0 0 M2 _ hg1 _ _ _ _)

/-- Witness for `c7_error_only_before_any_detail` on a run that fails
before any recipient because the user is missing. -/
theorem c7_witness :
    (mapGet (runJob envUserGone [] "job1" "u1" ["t1"] Method.sms
        1).final "job1" = some ⟨"job1", .failed, 1, 0, 0, [], 0, 5,
          some 5, some "User not found"⟩) ∧
    ((⟨"job1", .failed, 1, 0, 0, [], 0, 5, some 5,
        some "User not found"⟩ : Job).details = [] ∧
      (⟨"job1", .failed, 1, 0, 0, [], 0, 5, some 5,
        some "User not found"⟩ : Job).sent = 0 ∧
      (⟨"job1", .failed, 1, 0, 0, [], 0, 5, some 5,
        some "User not found"⟩ : Job).failed = 0) :=
  ⟨by decide,
    c7_error_only_before_any_detail envUserGone [] "job1" "u1" ["t1"]
      Method.sms 1 (fun _ => rfl)
      ⟨"job1", .failed, 1, 0, 0, [], 0, 5, some 5,
        some "User not found"⟩ (by decide) (by decide)⟩

/-- Claim C3 counterexample: a failure of the per-recipient
reminder-log write is NOT swallowed.  With two recipients where
recipient #1's send succeeds but its audit write raises and the
catch-handler audit write raises too, the job's status, error and
details all change and the loop aborts: the job ends `failed` with the
audit error surfaced in `error`, no detail recorded, and recipient #2
is never sent to. -/
theorem c3_cex_audit_failure_surfaces :
    (jobAt (runJob envLogDown [] "job1" "u1" ["t1", "t2"]
      Method.sms 2).final "job1").status = JStatus.failed ∧
    (jobAt (runJob envLogDown [] "job1" "u1" ["t1", "t2"]
      Method.sms 2).final "job1").error = some "log down2" ∧
    (jobAt (runJob envLogDown [] "job1" "u1" ["t1", "t2"]
      Method.sms 2).final "job1").details = [] ∧
    (runJob envLogDown [] "job1" "u1" ["t1", "t2"] Method.sms 2).acts =
      [Act.send "t1"] := by
  refine ⟨?_, ?_, ?_, ?_⟩ <;> decide

/-- Claim C3 (amended): (1) a failure of the final summary event write
is swallowed inside the event logger and never surfaces — the entire
run result is independent of that write's outcome, and `logEvent`
returns normally whatever its underlying store does; (2) a failure of
the per-recipient reminder-log write in the success path is caught by
the per-recipient handler: the recipient is recorded as one `failed`
detail carrying the audit error and the loop continues; (3) but if the
reminder-log write in the catch handler itself raises, the exception
escapes the per-recipient handler and aborts the loop (reaching the
outermost handler, which fails the job). -/
theorem c3_audit_failure_semantics :
    (∀ (env : ProcEnv) (m : Registry) (jobId userId : String)
        (tenantIds : List String) (method : Method) (u : ExcOr Unit),
      processRemindersInBackground { env with eventUnderlying := u } m
        jobId userId tenantIds method =
        processRemindersInBackground env m jobId userId tenantIds
          method) ∧
    (∀ u : ExcOr Unit, logEvent u = ()) ∧
    (∀ (m : Registry) (jobId : String) (t : Tenant) (te : TenantEnv)
        (tc : Nat) (j : Job) (r : SendResult) (msg : String),
      mapGet m jobId = some j → te.sendResult = ExcOr.ok r →
      te.logCreate = ExcOr.raise msg →
      te.logCreateCatch = ExcOr.ok () →
      processOne m jobId t te tc = .cont (mapSet m jobId (applyUpdate j
        { failed := some (j.failed + 1)
          details := some (j.details ++
            [⟨t.id, t.name, "failed", 0, some msg⟩]) })) tc
        [mapSet m jobId (applyUpdate j
          { failed := some (j.failed + 1)
            details := some (j.details ++
              [⟨t.id, t.name, "failed", 0, some msg⟩]) })]
        [Act.send t.id]) ∧
    (∀ (m : Registry) (jobId : String) (t : Tenant) (te : TenantEnv)
        (tc : Nat) (r : SendResult) (msg msg2 : String),
      te.sendResult = ExcOr.ok r → te.logCreate = ExcOr.raise msg →
      te.logCreateCatch = ExcOr.raise msg2 →
      processOne m jobId t te tc = .thrown m msg2 [] [Act.send t.id]) :=
  ⟨fun env m jobId userId tenantIds method u => rfl,
    fun u => rfl,
    fun m jobId t te tc j r msg hj hsr hlc hcc =>
      processOne_logCreate_raise_caught m jobId t te tc j r msg hj hsr
        hlc hcc,
    fun m jobId t te tc r msg msg2 hsr hlc hcc =>
      processOne_logCreate_catch_raise m jobId t te tc r msg msg2 hsr
        hlc hcc⟩

/-- Witness for `c3_audit_failure_semantics` at concrete inputs:
a run's result is unchanged by a failing summary write, and a concrete
recipient whose reminder-log write fails is recorded as one failed
detail while a failing catch-handler write throws. -/
theorem c3_witness :
    (processRemindersInBackground
        { envAllOK with eventUnderlying := ExcOr.raise "event log down" }
        [("job1", jobP)] "job1" "u1" ["t1", "t2"] Method.sms =
      processRemindersInBackground envAllOK [("job1", jobP)] "job1"
        "u1" ["t1", "t2"] Method.sms) ∧
    (logEvent (ExcOr.raise "event log down") = ()) ∧
    (processOne [("job1", jobP)] "job1" tenantA teLogRaiseCaught 0 =
      .cont [("job1", ⟨"job1", .processing, 2, 0, 1,
          [⟨"t1", "Alice", "failed", 0, some "log down"⟩], 0, 5, none,
          none⟩)] 0
        [[("job1", ⟨"job1", .processing, 2, 0, 1,
          [⟨"t1", "Alice", "failed", 0, some "log down"⟩], 0, 5, none,
          none⟩)]] [Act.send "t1"]) ∧
    (processOne [("job1", jobP)] "job1" tenantA teLogRaise 0 =
      .thrown [("job1", jobP)] "log down2" [] [Act.send "t1"]) :=
  ⟨c3_audit_failure_semantics.1 envAllOK [("job1", jobP)] "job1" "u1"
      ["t1", "t2"] Method.sms (ExcOr.raise "event log down"),
    c3_audit_failure_semantics.2.1 (ExcOr.raise "event log down"),
    c3_audit_failure_semantics.2.2.1 [("job1", jobP)] "job1" tenantA
      teLogRaiseCaught 0 jobP ⟨true, 50, none⟩ "log down" (by decide)
      (by decide) (by decide) (by decide),
    c3_audit_failure_semantics.2.2.2 [("job1", jobP)] "job1" tenantA
      teLogRaise 0 ⟨true, 50, none⟩ "log down" "log down2" (by decide)
      (by decide) (by decide)⟩

end RentAlert
